import Mathlib

/-!
# Railway ticket booking: the `Compartment` seat allocator

A shallow embedding of `src/cpp/main.cpp` and the properties of its two
operations, `checkAvailability` and `allocateSeats`.

Conventions of the embedding.

* The object state (`seats`, `availableSeats`) is passed explicitly: a member
  function that mutates the object returns the new object next to its result.
* `std::vector<std::vector<int>>` is `List (List Int)`; a seat holds `1` when
  it is available and `0` when it is booked, as the declaration of `seats`
  says.
* `int` values are integers of `Int`.  Every subtraction the allocator makes
  takes away at most the 80 seats of the grid, so no operation leaves the
  32-bit range unless a value starts within 80 of its lower end.
* A `for` loop over `0 .. size-1` is a recursion on the number of iterations
  left together with the running index; the size of a vector never changes.
* `std::optional<std::vector<std::string>>` is `Option (List String)`.
* Vector and string subscripts are total reads and writes in the functions
  that carry the source's names; the functions named `...Checked` repeat them
  with every subscript checked, and are shown to agree with them on the grid
  of the program.
-/

namespace Railway

/-! ## The data model -/

/-- The private members of `class Compartment` (lines 13-15): the seating
layout (1 for available, 0 for booked) and the total of available seats. -/
structure Compartment where
  seats : List (List Int)
  availableSeats : Int
deriving DecidableEq, Repr

namespace Compartment

/-- The constructor `Compartment::Compartment()` (lines 21-35): eleven rows of
seven available seats, one row of three, and `availableSeats(80)`. -/
def new : Compartment where
  seats :=
    [ [1, 1, 1, 1, 1, 1, 1],  -- Row A
      [1, 1, 1, 1, 1, 1, 1],  -- Row B
      [1, 1, 1, 1, 1, 1, 1],  -- Row C
      [1, 1, 1, 1, 1, 1, 1],  -- Row D
      [1, 1, 1, 1, 1, 1, 1],  -- Row E
      [1, 1, 1, 1, 1, 1, 1],  -- Row F
      [1, 1, 1, 1, 1, 1, 1],  -- Row G
      [1, 1, 1, 1, 1, 1, 1],  -- Row H
      [1, 1, 1, 1, 1, 1, 1],  -- Row I
      [1, 1, 1, 1, 1, 1, 1],  -- Row J
      [1, 1, 1, 1, 1, 1, 1],  -- Row K
      [1, 1, 1] ]             -- Row L (3 seats)
  availableSeats := 80

/-- The method `checkAvailability` (lines 37-39):
`return availableSeats >= seatCount;`. -/
def checkAvailability (c : Compartment) (seatCount : Int) : Bool :=
  decide (c.availableSeats ≥ seatCount)

/-- A call of the `const` member function `checkAvailability`: the answer
together with the object after the call, which is the object before it. -/
def checkAvailabilityCall (c : Compartment) (seatCount : Int) : Bool × Compartment :=
  (checkAvailability c seatCount, c)

/-- The local constant `rowNames` of `seatLabel` (line 42). -/
def rowNames : String := "ABCDEFGHIJKL"

/-- The method `seatLabel` (lines 41-44):
`rowNames[rowIndex] + std::to_string(seatIndex + 1)`. -/
def seatLabel (rowIndex seatIndex : Nat) : String :=
  String.singleton (rowNames.toList.getD rowIndex (Char.ofNat 0)) ++ toString (seatIndex + 1)

/-- The read `seats[rowIndex][seatIndex]`. -/
def seatValue (seats : List (List Int)) (rowIndex seatIndex : Nat) : Int :=
  (seats.getD rowIndex []).getD seatIndex 0

/-- The assignment `seats[rowIndex][seatIndex] = 0`. -/
def setBooked (seats : List (List Int)) (rowIndex seatIndex : Nat) : List (List Int) :=
  seats.set rowIndex ((seats.getD rowIndex []).set seatIndex 0)

/-- The inner loop of `allocateConsecutiveSeats` (lines 63-66): every index
of `tempSeats` is marked booked in the row and its label is pushed. -/
def commitBlock (rowIndex : Nat) :
    List Nat → List (List Int) → List String → List (List Int) × List String
  | [], seats, allocatedSeats => (seats, allocatedSeats)
  | index :: rest, seats, allocatedSeats =>
      commitBlock rowIndex rest (setBooked seats rowIndex index)
        (allocatedSeats ++ [seatLabel rowIndex index])

/-- The loop of `allocateConsecutiveSeats` (lines 53-70), entered at
`seatIndex` with `remaining` iterations to go.  The result is the return
value, the object and `allocatedSeats`. -/
def consecutiveLoop (rowIndex : Nat) (seatCount : Int) :
    Nat → Nat → Int → List Nat → Compartment → List String →
      Bool × Compartment × List String
  | 0, _, _, _, c, allocatedSeats => (false, c, allocatedSeats)
  | remaining + 1, seatIndex, consecutiveSeats, tempSeats, c, allocatedSeats =>
      let tempSeats1 :=
        if seatValue c.seats rowIndex seatIndex = 1 then tempSeats ++ [seatIndex] else []
      let consecutiveSeats1 :=
        if seatValue c.seats rowIndex seatIndex = 1 then consecutiveSeats + 1 else 0
      if consecutiveSeats1 = seatCount then
        let committed := commitBlock rowIndex tempSeats1 c.seats allocatedSeats
        (true, { seats := committed.1, availableSeats := c.availableSeats - seatCount },
          committed.2)
      else
        consecutiveLoop rowIndex seatCount remaining (seatIndex + 1) consecutiveSeats1
          tempSeats1 c allocatedSeats

/-- The method `allocateConsecutiveSeats` (lines 46-72). -/
def allocateConsecutiveSeats (c : Compartment) (rowIndex : Nat) (seatCount : Int)
    (allocatedSeats : List String) : Bool × Compartment × List String :=
  consecutiveLoop rowIndex seatCount (c.seats.getD rowIndex []).length 0 0 [] c allocatedSeats

/-- The first loop of `allocateSeats` (lines 78-82), entered at `rowIndex`
with `remaining` rows to go; `true` means the function returned from it. -/
def consecutiveRows (seatCount : Int) :
    Nat → Nat → Compartment → List String → Bool × Compartment × List String
  | 0, _, c, allocatedSeats => (false, c, allocatedSeats)
  | remaining + 1, rowIndex, c, allocatedSeats =>
      match allocateConsecutiveSeats c rowIndex seatCount allocatedSeats with
      | (true, c1, allocatedSeats1) => (true, c1, allocatedSeats1)
      | (false, c1, allocatedSeats1) =>
          consecutiveRows seatCount remaining (rowIndex + 1) c1 allocatedSeats1

/-- How the second loop nest of `allocateSeats` is left: by the `return` of
line 94, or by running to its end with the local variables as they are. -/
inductive Flow where
  | returned (c : Compartment) (allocatedSeats : List String)
  | finished (c : Compartment) (allocatedSeats : List String) (seatCount : Int)
deriving DecidableEq, Repr

/-- The inner loop of the second phase (lines 86-97) for the row `rowIndex`,
entered at `seatIndex` with `remaining` iterations to go. -/
def scatterSeats (rowIndex : Nat) :
    Nat → Nat → Compartment → List String → Int → Flow
  | 0, _, c, allocatedSeats, seatCount => Flow.finished c allocatedSeats seatCount
  | remaining + 1, seatIndex, c, allocatedSeats, seatCount =>
      if seatValue c.seats rowIndex seatIndex = 1 then
        let allocatedSeats1 := allocatedSeats ++ [seatLabel rowIndex seatIndex]
        let seats1 := setBooked c.seats rowIndex seatIndex
        let seatCount1 := seatCount - 1
        if seatCount1 = 0 then
          Flow.returned
            { seats := seats1, availableSeats := c.availableSeats - (allocatedSeats1.length : Int) }
            allocatedSeats1
        else
          scatterSeats rowIndex remaining (seatIndex + 1)
            { seats := seats1, availableSeats := c.availableSeats } allocatedSeats1 seatCount1
      else
        scatterSeats rowIndex remaining (seatIndex + 1) c allocatedSeats seatCount

/-- The outer loop of the second phase (lines 85-98), entered at `rowIndex`
with `remaining` rows to go. -/
def scatterRows : Nat → Nat → Compartment → List String → Int → Flow
  | 0, _, c, allocatedSeats, seatCount => Flow.finished c allocatedSeats seatCount
  | remaining + 1, rowIndex, c, allocatedSeats, seatCount =>
      match scatterSeats rowIndex (c.seats.getD rowIndex []).length 0 c allocatedSeats
          seatCount with
      | Flow.returned c1 allocatedSeats1 => Flow.returned c1 allocatedSeats1
      | Flow.finished c1 allocatedSeats1 seatCount1 =>
          scatterRows remaining (rowIndex + 1) c1 allocatedSeats1 seatCount1

/-- The method `allocateSeats` (lines 74-102): the returned optional list and
the object after the call. -/
def allocateSeats (c : Compartment) (seatCount : Int) : Option (List String) × Compartment :=
  match consecutiveRows seatCount c.seats.length 0 c [] with
  | (true, c1, allocatedSeats1) => (some allocatedSeats1, c1)
  | (false, c1, allocatedSeats1) =>
      match scatterRows c1.seats.length 0 c1 allocatedSeats1 seatCount with
      | Flow.returned c2 allocatedSeats2 => (some allocatedSeats2, c2)
      | Flow.finished c2 _ _ => (none, c2)

/-! ## Vocabulary of the specification -/

/-- The number of seats of the grid that are in the available state. -/
def countAvailable (seats : List (List Int)) : Nat :=
  (seats.map (fun row => row.count 1)).sum

/-- The row lengths of the fixed grid: rows A-K of 7 seats, row L of 3. -/
def rowLengths : List Nat := [7, 7, 7, 7, 7, 7, 7, 7, 7, 7, 7, 3]

/-- The grid has the fixed shape. -/
def fixedShape (c : Compartment) : Prop :=
  c.seats.map List.length = rowLengths

instance (c : Compartment) : Decidable (fixedShape c) := by
  unfold fixedShape; infer_instance

/-- Every seat is in one of the two states, available (1) or booked (0). -/
def binarySeats (c : Compartment) : Prop :=
  ∀ row ∈ c.seats, ∀ s ∈ row, s = 0 ∨ s = 1

instance (c : Compartment) : Decidable (binarySeats c) := by
  unfold binarySeats; infer_instance

/-- The number of seats of row `rowIndex`. -/
def rowLength (seats : List (List Int)) (rowIndex : Nat) : Nat :=
  (seats.getD rowIndex []).length

/-- The available seats of row `rowIndex` among the `n` positions that start
at `seatIndex`, left to right, as (row, seat) pairs. -/
def availableFrom (seats : List (List Int)) (rowIndex seatIndex n : Nat) : List (Nat × Nat) :=
  ((List.range' seatIndex n).filter (fun i => decide (seatValue seats rowIndex i = 1))).map
    (fun i => (rowIndex, i))

/-- The available seats of the `n` rows that start at `rowIndex`, in row-major
order. -/
def availableRows (seats : List (List Int)) (rowIndex n : Nat) : List (Nat × Nat) :=
  (List.range' rowIndex n).flatMap
    (fun r => availableFrom seats r 0 (rowLength seats r))

/-- The available seats of the whole grid in row-major order (rows A to L,
left to right within a row). -/
def availablePositions (seats : List (List Int)) : List (Nat × Nat) :=
  availableRows seats 0 seats.length

/-- The label of the seat at a (row, seat) position. -/
def labelOf (p : Nat × Nat) : String := seatLabel p.1 p.2

/-- The grid after the seats at the positions of `ps` are marked booked. -/
def bookAll (ps : List (Nat × Nat)) (seats : List (List Int)) : List (List Int) :=
  ps.foldl (fun g p => setBooked g p.1 p.2) seats

/-- The seats `j-k+1 .. j` of the row lie in the row and are all available: a
run of `k` consecutive available seats ends at position `j` (0-based). -/
def runEndsAt (seats : List (List Int)) (rowIndex k j : Nat) : Prop :=
  k ≤ j + 1 ∧ j < rowLength seats rowIndex ∧
    ∀ x, j + 1 - k ≤ x → x ≤ j → seatValue seats rowIndex x = 1

/-- The positions of the block of `k` seats of row `rowIndex` that ends at
seat `j`, left to right. -/
def blockAt (rowIndex k j : Nat) : List (Nat × Nat) :=
  (List.range' (j + 1 - k) k).map (fun i => (rowIndex, i))

/-- Row-major order on positions: an earlier row, or the same row and a seat
further left. -/
def rowMajorLt (p q : Nat × Nat) : Prop :=
  p.1 < q.1 ∨ (p.1 = q.1 ∧ p.2 < q.2)

instance (p q : Nat × Nat) : Decidable (rowMajorLt p q) := by
  unfold rowMajorLt; infer_instance

/-- The seat at a position of the grid, when the grid has that position. -/
def seatAt (seats : List (List Int)) (rowIndex seatIndex : Nat) : Option Int :=
  (seats[rowIndex]?).bind (fun row => row[seatIndex]?)

/-! ## Sequences of calls and particular states -/

/-- The object after a sequence of `allocateSeats` calls, made one after the
other with the seat counts of the list. -/
def afterCalls (c : Compartment) : List Int → Compartment
  | [] => c
  | seatCount :: rest => afterCalls (allocateSeats c seatCount).2 rest

/-- The label lists returned by the successful calls of a sequence of
`allocateSeats` calls, in the order of the calls. -/
def returnedLists (c : Compartment) : List Int → List (List String)
  | [] => []
  | seatCount :: rest =>
      match (allocateSeats c seatCount).1 with
      | some labels => labels :: returnedLists (allocateSeats c seatCount).2 rest
      | none => returnedLists (allocateSeats c seatCount).2 rest

/-- The grid in which every seat of rows A to K is booked and the three seats
of row L are available. -/
def lastRowFreeSeats : List (List Int) :=
  [ [0, 0, 0, 0, 0, 0, 0],  -- Row A
    [0, 0, 0, 0, 0, 0, 0],  -- Row B
    [0, 0, 0, 0, 0, 0, 0],  -- Row C
    [0, 0, 0, 0, 0, 0, 0],  -- Row D
    [0, 0, 0, 0, 0, 0, 0],  -- Row E
    [0, 0, 0, 0, 0, 0, 0],  -- Row F
    [0, 0, 0, 0, 0, 0, 0],  -- Row G
    [0, 0, 0, 0, 0, 0, 0],  -- Row H
    [0, 0, 0, 0, 0, 0, 0],  -- Row I
    [0, 0, 0, 0, 0, 0, 0],  -- Row J
    [0, 0, 0, 0, 0, 0, 0],  -- Row K
    [1, 1, 1] ]             -- Row L

/-- The grid in which every seat is booked. -/
def allBookedSeats : List (List Int) :=
  [ [0, 0, 0, 0, 0, 0, 0],  -- Row A
    [0, 0, 0, 0, 0, 0, 0],  -- Row B
    [0, 0, 0, 0, 0, 0, 0],  -- Row C
    [0, 0, 0, 0, 0, 0, 0],  -- Row D
    [0, 0, 0, 0, 0, 0, 0],  -- Row E
    [0, 0, 0, 0, 0, 0, 0],  -- Row F
    [0, 0, 0, 0, 0, 0, 0],  -- Row G
    [0, 0, 0, 0, 0, 0, 0],  -- Row H
    [0, 0, 0, 0, 0, 0, 0],  -- Row I
    [0, 0, 0, 0, 0, 0, 0],  -- Row J
    [0, 0, 0, 0, 0, 0, 0],  -- Row K
    [0, 0, 0] ]             -- Row L


/-! ## The allocator with every index checked

The same functions once more, with each use of an index made explicit: a
function returns `none` as soon as an index is used that is outside the
vector or string it is used on (where `operator[]` has no defined
behaviour). -/

/-- The assignment `seats[rowIndex][seatIndex] = 0`, defined when `rowIndex`
is a row of the grid and `seatIndex` a seat of that row. -/
def setBookedChecked (seats : List (List Int)) (rowIndex seatIndex : Nat) :
    Option (List (List Int)) :=
  if rowIndex < seats.length ∧ seatIndex < rowLength seats rowIndex then
    some (setBooked seats rowIndex seatIndex)
  else
    none

/-- The method `seatLabel`, defined when `rowIndex` is one of the positions
0..11 of `rowNames`. -/
def seatLabelChecked (rowIndex seatIndex : Nat) : Option String :=
  if rowIndex < rowNames.length then some (seatLabel rowIndex seatIndex) else none

/-- The loop of lines 63-66 with its indices checked. -/
def commitBlockChecked (rowIndex : Nat) :
    List Nat → List (List Int) → List String → Option (List (List Int) × List String)
  | [], seats, allocatedSeats => some (seats, allocatedSeats)
  | index :: rest, seats, allocatedSeats =>
      match setBookedChecked seats rowIndex index, seatLabelChecked rowIndex index with
      | some seats1, some label =>
          commitBlockChecked rowIndex rest seats1 (allocatedSeats ++ [label])
      | _, _ => none

/-- The loop of lines 53-70 with its indices checked; the read
`rowSeats[seatIndex]` is `seatAt`. -/
def consecutiveLoopChecked (rowIndex : Nat) (seatCount : Int) :
    Nat → Nat → Int → List Nat → Compartment → List String →
      Option (Bool × Compartment × List String)
  | 0, _, _, _, c, allocatedSeats => some (false, c, allocatedSeats)
  | remaining + 1, seatIndex, consecutiveSeats, tempSeats, c, allocatedSeats =>
      match seatAt c.seats rowIndex seatIndex with
      | none => none
      | some value =>
          let tempSeats1 := if value = 1 then tempSeats ++ [seatIndex] else []
          let consecutiveSeats1 := if value = 1 then consecutiveSeats + 1 else 0
          if consecutiveSeats1 = seatCount then
            match commitBlockChecked rowIndex tempSeats1 c.seats allocatedSeats with
            | none => none
            | some committed =>
                some (true,
                  { seats := committed.1, availableSeats := c.availableSeats - seatCount },
                  committed.2)
          else
            consecutiveLoopChecked rowIndex seatCount remaining (seatIndex + 1)
              consecutiveSeats1 tempSeats1 c allocatedSeats

/-- The method `allocateConsecutiveSeats` with its indices checked, the
first being `seats[rowIndex]` of line 51. -/
def allocateConsecutiveSeatsChecked (c : Compartment) (rowIndex : Nat) (seatCount : Int)
    (allocatedSeats : List String) : Option (Bool × Compartment × List String) :=
  match c.seats[rowIndex]? with
  | none => none
  | some rowSeats =>
      consecutiveLoopChecked rowIndex seatCount rowSeats.length 0 0 [] c allocatedSeats

/-- The first loop of `allocateSeats` with its indices checked. -/
def consecutiveRowsChecked (seatCount : Int) :
    Nat → Nat → Compartment → List String → Option (Bool × Compartment × List String)
  | 0, _, c, allocatedSeats => some (false, c, allocatedSeats)
  | remaining + 1, rowIndex, c, allocatedSeats =>
      match allocateConsecutiveSeatsChecked c rowIndex seatCount allocatedSeats with
      | none => none
      | some (true, c1, allocatedSeats1) => some (true, c1, allocatedSeats1)
      | some (false, c1, allocatedSeats1) =>
          consecutiveRowsChecked seatCount remaining (rowIndex + 1) c1 allocatedSeats1

/-- The inner loop of the second phase with its indices checked. -/
def scatterSeatsChecked (rowIndex : Nat) :
    Nat → Nat → Compartment → List String → Int → Option Flow
  | 0, _, c, allocatedSeats, seatCount => some (Flow.finished c allocatedSeats seatCount)
  | remaining + 1, seatIndex, c, allocatedSeats, seatCount =>
      match seatAt c.seats rowIndex seatIndex with
      | none => none
      | some value =>
          if value = 1 then
            match seatLabelChecked rowIndex seatIndex,
                setBookedChecked c.seats rowIndex seatIndex with
            | some label, some seats1 =>
                let allocatedSeats1 := allocatedSeats ++ [label]
                let seatCount1 := seatCount - 1
                if seatCount1 = 0 then
                  some (Flow.returned
                    { seats := seats1,
                      availableSeats := c.availableSeats - (allocatedSeats1.length : Int) }
                    allocatedSeats1)
                else
                  scatterSeatsChecked rowIndex remaining (seatIndex + 1)
                    { seats := seats1, availableSeats := c.availableSeats } allocatedSeats1
                    seatCount1
            | _, _ => none
          else
            scatterSeatsChecked rowIndex remaining (seatIndex + 1) c allocatedSeats seatCount

/-- The outer loop of the second phase with its indices checked, the first
being `seats[rowIndex]` of line 86. -/
def scatterRowsChecked : Nat → Nat → Compartment → List String → Int → Option Flow
  | 0, _, c, allocatedSeats, seatCount => some (Flow.finished c allocatedSeats seatCount)
  | remaining + 1, rowIndex, c, allocatedSeats, seatCount =>
      match c.seats[rowIndex]? with
      | none => none
      | some rowSeats =>
          match scatterSeatsChecked rowIndex rowSeats.length 0 c allocatedSeats seatCount with
          | none => none
          | some (Flow.returned c1 allocatedSeats1) => some (Flow.returned c1 allocatedSeats1)
          | some (Flow.finished c1 allocatedSeats1 seatCount1) =>
              scatterRowsChecked remaining (rowIndex + 1) c1 allocatedSeats1 seatCount1

/-- The method `allocateSeats` with every index checked: `none` when an index
is out of bounds, and otherwise the returned optional list and the object
after the call. -/
def allocateSeatsChecked (c : Compartment) (seatCount : Int) :
    Option (Option (List String) × Compartment) :=
  match consecutiveRowsChecked seatCount c.seats.length 0 c [] with
  | none => none
  | some (true, c1, allocatedSeats1) => some (some allocatedSeats1, c1)
  | some (false, c1, allocatedSeats1) =>
      match scatterRowsChecked c1.seats.length 0 c1 allocatedSeats1 seatCount with
      | none => none
      | some (Flow.returned c2 allocatedSeats2) => some (some allocatedSeats2, c2)
      | some (Flow.finished c2 _ _) => some (none, c2)


/-! ## Reading and writing seats -/

theorem seatValue_setBooked (g : List (List Int)) (r i r1 i1 : Nat) :
    seatValue (setBooked g r i) r1 i1 = if r = r1 ∧ i = i1 then 0 else seatValue g r1 i1 := by
  unfold seatValue setBooked
  simp only [List.getD_eq_getElem?_getD, List.getElem?_set]
  by_cases hr : r = r1
  · subst hr
    by_cases hlt : r < g.length
    · by_cases hi : i = i1
      · subst hi
        by_cases hi2 : i < g[r].length <;> simp [hlt, hi2, List.getElem?_set]
      · simp [hlt, hi, List.getElem?_set]
    · have : g[r]? = none := by simp; omega
      by_cases hi : i = i1 <;> simp [hlt, hi, this]
  · simp [hr]

theorem length_setBooked (g : List (List Int)) (r i : Nat) :
    (setBooked g r i).length = g.length := by
  simp [setBooked]

theorem rowLength_setBooked (g : List (List Int)) (r i r1 : Nat) :
    rowLength (setBooked g r i) r1 = rowLength g r1 := by
  unfold rowLength setBooked
  simp only [List.getD_eq_getElem?_getD, List.getElem?_set]
  by_cases hr : r = r1
  · subst hr
    by_cases hlt : r < g.length
    · simp [hlt]
    · have : g[r]? = none := by simp; omega
      simp [hlt, this]
  · simp [hr]

theorem bookAll_nil (g : List (List Int)) : bookAll [] g = g := rfl

theorem bookAll_cons (p : Nat × Nat) (ps : List (Nat × Nat)) (g : List (List Int)) :
    bookAll (p :: ps) g = bookAll ps (setBooked g p.1 p.2) := rfl

theorem bookAll_append (ps qs : List (Nat × Nat)) (g : List (List Int)) :
    bookAll (ps ++ qs) g = bookAll qs (bookAll ps g) := by
  simp [bookAll, List.foldl_append]

theorem seatValue_bookAll (ps : List (Nat × Nat)) (g : List (List Int)) (r i : Nat) :
    seatValue (bookAll ps g) r i = if (r, i) ∈ ps then 0 else seatValue g r i := by
  induction ps generalizing g with
  | nil => simp [bookAll_nil]
  | cons p ps ih =>
    rw [bookAll_cons, ih, seatValue_setBooked]
    obtain ⟨a, b⟩ := p
    by_cases h1 : (r, i) ∈ ps
    · simp [h1]
    · by_cases h2 : a = r ∧ b = i
      · obtain ⟨rfl, rfl⟩ := h2; simp
      · have h3 : ¬ ((r, i) = (a, b)) := by
          intro h; injection h with ha hb; exact h2 ⟨ha.symm, hb.symm⟩
        simp [h1, h2, h3]

theorem length_bookAll (ps : List (Nat × Nat)) (g : List (List Int)) :
    (bookAll ps g).length = g.length := by
  induction ps generalizing g with
  | nil => rfl
  | cons p ps ih => rw [bookAll_cons, ih, length_setBooked]

theorem rowLength_bookAll (ps : List (Nat × Nat)) (g : List (List Int)) (r : Nat) :
    rowLength (bookAll ps g) r = rowLength g r := by
  induction ps generalizing g with
  | nil => rfl
  | cons p ps ih => rw [bookAll_cons, ih, rowLength_setBooked]

theorem availableFrom_congr (g h : List (List Int)) (r s n : Nat)
    (hv : ∀ i, s ≤ i → i < s + n → seatValue g r i = seatValue h r i) :
    availableFrom g r s n = availableFrom h r s n := by
  unfold availableFrom
  congr 1
  apply List.filter_congr
  intro x hx
  rw [List.mem_range'_1] at hx
  rw [hv x hx.1 hx.2]

theorem availableRows_congr (g h : List (List Int)) (s n : Nat)
    (hl : ∀ r, s ≤ r → r < s + n → rowLength g r = rowLength h r)
    (hv : ∀ r i, s ≤ r → r < s + n → seatValue g r i = seatValue h r i) :
    availableRows g s n = availableRows h s n := by
  induction n generalizing s with
  | zero => rfl
  | succ n ih =>
    unfold availableRows at ih ⊢
    rw [List.range'_succ, List.flatMap_cons, List.flatMap_cons]
    rw [ih (s + 1) (fun r h1 h2 => hl r (by omega) (by omega))
      (fun r i h1 h2 => hv r i (by omega) (by omega))]
    rw [hl s (by omega) (by omega)]
    rw [availableFrom_congr g h s 0 _ (fun i _ _ => hv s i (by omega) (by omega))]

/-! ## The second phase: scattered seats -/

theorem availableFrom_succ_of_available (g : List (List Int)) (r s n : Nat)
    (h : seatValue g r s = 1) :
    availableFrom g r s (n + 1) = (r, s) :: availableFrom g r (s + 1) n := by
  simp [availableFrom, List.range'_succ, h]

theorem availableFrom_succ_of_not_available (g : List (List Int)) (r s n : Nat)
    (h : ¬ seatValue g r s = 1) :
    availableFrom g r s (n + 1) = availableFrom g r (s + 1) n := by
  simp [availableFrom, List.range'_succ, h]

theorem availableFrom_setBooked (g : List (List Int)) (r s n : Nat) :
    availableFrom (setBooked g r s) r (s + 1) n = availableFrom g r (s + 1) n := by
  apply availableFrom_congr
  intro i h1 _
  rw [seatValue_setBooked]
  have : ¬ (r = r ∧ s = i) := by omega
  rw [if_neg this]

/-- The inner loop of the second phase in closed form: with `ps` the available
seats of the rest of the row, it returns after the first `seatCount` of them
when `1 ≤ seatCount ≤ |ps|`, and otherwise books all of them and runs to its
end. -/
theorem scatterSeats_eq (r : Nat) (remaining s : Nat) (c : Compartment)
    (out : List String) (n : Int) :
    scatterSeats r remaining s c out n =
      if 1 ≤ n ∧ n ≤ ((availableFrom c.seats r s remaining).length : Int) then
        Flow.returned
          { seats := bookAll ((availableFrom c.seats r s remaining).take n.toNat) c.seats,
            availableSeats := c.availableSeats - ((out.length : Int) + n) }
          (out ++ ((availableFrom c.seats r s remaining).take n.toNat).map labelOf)
      else
        Flow.finished
          { seats := bookAll (availableFrom c.seats r s remaining) c.seats,
            availableSeats := c.availableSeats }
          (out ++ (availableFrom c.seats r s remaining).map labelOf)
          (n - ((availableFrom c.seats r s remaining).length : Int)) := by
  induction remaining generalizing s c out n with
  | zero =>
    have hc : ¬ (1 ≤ n ∧ n ≤ 0) := by omega
    simp [scatterSeats, availableFrom, bookAll_nil, hc]
  | succ m ih =>
    unfold scatterSeats
    by_cases hv : seatValue c.seats r s = 1
    · rw [if_pos hv, availableFrom_succ_of_available _ _ _ _ hv]
      by_cases h1 : n - 1 = 0
      · have hn : n = 1 := by omega
        subst hn
        simp [bookAll_cons, bookAll_nil, labelOf]
      · simp only [h1, if_false]
        rw [ih]
        simp only [availableFrom_setBooked]
        by_cases hc : 1 ≤ n - 1 ∧ n - 1 ≤ ((availableFrom c.seats r (s + 1) m).length : Int)
        · have hc2 : 1 ≤ n ∧ n ≤ (((r, s) :: availableFrom c.seats r (s + 1) m).length : Int) := by
            simp only [List.length_cons, Nat.cast_add, Nat.cast_one]; omega
          rw [if_pos hc, if_pos hc2]
          have ht : n.toNat = (n - 1).toNat + 1 := by omega
          rw [ht, List.take_succ_cons]
          simp only [bookAll_cons, List.map_cons, List.length_append, List.length_singleton,
            List.append_assoc, List.singleton_append, labelOf, Nat.cast_add, Nat.cast_one]
          congr 2
          omega
        · have hc2 : ¬ (1 ≤ n ∧ n ≤ (((r, s) :: availableFrom c.seats r (s + 1) m).length : Int)) := by
            simp only [List.length_cons, Nat.cast_add, Nat.cast_one]; omega
          rw [if_neg hc, if_neg hc2]
          simp only [bookAll_cons, List.map_cons, List.length_cons, List.append_assoc,
            List.singleton_append, labelOf, Nat.cast_add, Nat.cast_one]
          congr 1
          omega
    · rw [if_neg hv, availableFrom_succ_of_not_available _ _ _ _ hv]
      exact ih _ _ _ _

theorem fst_of_mem_availableFrom (g : List (List Int)) (r s n : Nat) (p : Nat × Nat)
    (h : p ∈ availableFrom g r s n) : p.1 = r := by
  unfold availableFrom at h
  rw [List.mem_map] at h
  obtain ⟨i, _, rfl⟩ := h
  rfl

theorem availableRows_succ (g : List (List Int)) (r n : Nat) :
    availableRows g r (n + 1) =
      availableFrom g r 0 (rowLength g r) ++ availableRows g (r + 1) n := by
  simp [availableRows, List.range'_succ]

theorem availableRows_bookAll_row (g : List (List Int)) (r n : Nat) (ps : List (Nat × Nat))
    (h : ∀ p ∈ ps, p.1 = r) :
    availableRows (bookAll ps g) (r + 1) n = availableRows g (r + 1) n := by
  apply availableRows_congr
  · intro r1 _ _
    exact rowLength_bookAll ps g r1
  · intro r1 i h1 _
    rw [seatValue_bookAll]
    have : ¬ (r1, i) ∈ ps := by
      intro hm
      have := h _ hm
      simp only at this
      omega
    rw [if_neg this]

/-- The second phase in closed form: with `ps` the available seats of the
rows still to scan, in row-major order, it returns after the first
`seatCount` of them when `1 ≤ seatCount ≤ |ps|`, and otherwise books all of
them and runs to its end. -/
theorem scatterRows_eq (remaining r : Nat) (c : Compartment) (out : List String) (n : Int) :
    scatterRows remaining r c out n =
      if 1 ≤ n ∧ n ≤ ((availableRows c.seats r remaining).length : Int) then
        Flow.returned
          { seats := bookAll ((availableRows c.seats r remaining).take n.toNat) c.seats,
            availableSeats := c.availableSeats - ((out.length : Int) + n) }
          (out ++ ((availableRows c.seats r remaining).take n.toNat).map labelOf)
      else
        Flow.finished
          { seats := bookAll (availableRows c.seats r remaining) c.seats,
            availableSeats := c.availableSeats }
          (out ++ (availableRows c.seats r remaining).map labelOf)
          (n - ((availableRows c.seats r remaining).length : Int)) := by
  induction remaining generalizing r c out n with
  | zero =>
    have hc : ¬ (1 ≤ n ∧ n ≤ 0) := by omega
    simp [scatterRows, availableRows, bookAll_nil, hc]
  | succ m ih =>
    unfold scatterRows
    have hlen : (c.seats.getD r []).length = rowLength c.seats r := rfl
    rw [hlen, scatterSeats_eq, availableRows_succ]
    generalize hA0 : availableFrom c.seats r 0 (rowLength c.seats r) = A0
    have hfst : ∀ p ∈ A0, p.1 = r := by
      intro p hp
      rw [← hA0] at hp
      exact fst_of_mem_availableFrom _ _ _ _ _ hp
    by_cases hc : 1 ≤ n ∧ n ≤ (A0.length : Int)
    · have hc2 : 1 ≤ n ∧ n ≤ ((A0 ++ availableRows c.seats (r + 1) m).length : Int) := by
        simp only [List.length_append, Nat.cast_add]; omega
      rw [if_pos hc, if_pos hc2]
      have : n.toNat ≤ A0.length := by omega
      simp only [List.take_append_of_le_length this]
    · rw [if_neg hc]
      simp only []
      rw [ih]
      simp only [availableRows_bookAll_row _ _ _ _ hfst]
      generalize availableRows c.seats (r + 1) m = A1
      by_cases hd : 1 ≤ n - (A0.length : Int) ∧ n - (A0.length : Int) ≤ (A1.length : Int)
      · have hd2 : 1 ≤ n ∧ n ≤ ((A0 ++ A1).length : Int) := by
          simp only [List.length_append, Nat.cast_add]; omega
        rw [if_pos hd, if_pos hd2]
        have ht : List.take n.toNat (A0 ++ A1) = A0 ++ List.take (n - (A0.length : Int)).toNat A1 := by
          rw [List.take_append_eq_append_take, List.take_of_length_le (by omega)]
          congr 2
          omega
        rw [ht, bookAll_append]
        simp only [List.map_append, List.length_append, List.length_map, List.append_assoc,
          Nat.cast_add]
        congr 2
        omega
      · have hd2 : ¬ (1 ≤ n ∧ n ≤ ((A0 ++ A1).length : Int)) := by
          simp only [List.length_append, Nat.cast_add]; omega
        rw [if_neg hd, if_neg hd2, bookAll_append]
        simp only [List.map_append, List.length_append, List.append_assoc, Nat.cast_add]
        congr 1
        omega

/-! ## The first phase: a block of consecutive seats in one row -/

theorem commitBlock_eq (r : Nat) (temp : List Nat) (g : List (List Int)) (out : List String) :
    commitBlock r temp g out =
      (bookAll (temp.map (fun i => (r, i))) g,
        out ++ (temp.map (fun i => (r, i))).map labelOf) := by
  induction temp generalizing g out with
  | nil => simp [commitBlock, bookAll_nil]
  | cons i rest ih =>
    rw [commitBlock, ih]
    simp [bookAll_cons, labelOf]

/-- The loop of `allocateConsecutiveSeats` for a positive `seatCount = k`,
entered at seat `i` with a run of `m < k` available seats just before `i`
that cannot be extended to the left: it commits the block that ends at the
first position `j ≥ i` where a run of `k` ends, and returns `false` without
touching anything when there is no such position. -/
theorem consecutiveLoop_spec (r k : Nat) (c : Compartment) (out : List String) :
    ∀ (remaining i m : Nat), i + remaining = rowLength c.seats r → m ≤ i → m < k →
      (∀ x, i - m ≤ x → x < i → seatValue c.seats r x = 1) →
      (m = i ∨ seatValue c.seats r (i - m - 1) ≠ 1) →
      (∃ j, i ≤ j ∧ runEndsAt c.seats r k j ∧
          (∀ j1, i ≤ j1 → j1 < j → ¬ runEndsAt c.seats r k j1) ∧
          consecutiveLoop r (k : Int) remaining i (m : Int) (List.range' (i - m) m) c out =
            (true,
              { seats := bookAll (blockAt r k j) c.seats,
                availableSeats := c.availableSeats - (k : Int) },
              out ++ (blockAt r k j).map labelOf)) ∨
        ((∀ j1, i ≤ j1 → ¬ runEndsAt c.seats r k j1) ∧
          consecutiveLoop r (k : Int) remaining i (m : Int) (List.range' (i - m) m) c out =
            (false, c, out)) := by
  intro remaining
  induction remaining with
  | zero =>
    intro i m hlen _ _ _ _
    right
    refine ⟨?_, rfl⟩
    intro j1 h1 hrun
    have := hrun.2.1
    omega
  | succ rem ih =>
    intro i m hlen hmi hmk hrunm hmax
    unfold consecutiveLoop
    by_cases hv : seatValue c.seats r i = 1
    · simp only [hv, if_true]
      have e1 : List.range' (i - m) m ++ [i] = List.range' (i + 1 - (m + 1)) (m + 1) := by
        rw [List.range'_concat]
        have h1 : i + 1 - (m + 1) = i - m := by omega
        have h2 : i - m + 1 * m = i := by omega
        rw [h1, h2]
      have e2 : (m : Int) + 1 = ((m + 1 : Nat) : Int) := by push_cast; rfl
      by_cases hk : (m : Int) + 1 = (k : Int)
      · left
        refine ⟨i, le_refl i, ?_, ?_, ?_⟩
        · refine ⟨by omega, by omega, ?_⟩
          intro x hx1 hx2
          by_cases hxi : x = i
          · rw [hxi]; exact hv
          · exact hrunm x (by omega) (by omega)
        · intro j1 h1 h2
          omega
        · rw [if_pos hk, commitBlock_eq, e1]
          have hkm : k = m + 1 := by omega
          subst hkm
          rfl
      · rw [if_neg hk, e1, e2]
        have hnot : ¬ runEndsAt c.seats r k i := by
          intro hrun
          obtain ⟨h1, _, h3⟩ := hrun
          rcases hmax with h | h
          · omega
          · exact h (h3 (i - m - 1) (by omega) (by omega))
        have hrunm1 : ∀ x, i + 1 - (m + 1) ≤ x → x < i + 1 → seatValue c.seats r x = 1 := by
          intro x hx1 hx2
          by_cases hxi : x = i
          · rw [hxi]; exact hv
          · exact hrunm x (by omega) (by omega)
        have hmax1 : m + 1 = i + 1 ∨ seatValue c.seats r (i + 1 - (m + 1) - 1) ≠ 1 := by
          rcases hmax with h | h
          · left; omega
          · right
            have : i + 1 - (m + 1) - 1 = i - m - 1 := by omega
            rw [this]; exact h
        rcases ih (i + 1) (m + 1) (by omega) (by omega) (by omega) hrunm1 hmax1 with
          ⟨j, hj1, hj2, hj3, hj4⟩ | ⟨hj1, hj2⟩
        · left
          refine ⟨j, by omega, hj2, ?_, hj4⟩
          intro j1 h1 h2
          by_cases hji : j1 = i
          · rw [hji]; exact hnot
          · exact hj3 j1 (by omega) h2
        · right
          refine ⟨?_, hj2⟩
          intro j1 h1
          by_cases hji : j1 = i
          · rw [hji]; exact hnot
          · exact hj1 j1 (by omega)
    · simp only [hv, if_false]
      have hk : ¬ (0 : Int) = (k : Int) := by omega
      rw [if_neg hk]
      have hnot : ¬ runEndsAt c.seats r k i := by
        intro hrun
        exact hv (hrun.2.2 i (by omega) (le_refl i))
      have hmax1 : 0 = i + 1 ∨ seatValue c.seats r (i + 1 - 0 - 1) ≠ 1 := by
        right
        have : i + 1 - 0 - 1 = i := by omega
        rw [this]; exact hv
      have hstep := ih (i + 1) 0 (by omega) (by omega) (by omega)
        (fun x h1 h2 => absurd h2 (by omega)) hmax1
      simp only [Nat.sub_zero, List.range'_zero, Nat.cast_zero] at hstep
      rcases hstep with ⟨j, hj1, hj2, hj3, hj4⟩ | ⟨hj1, hj2⟩
      · left
        refine ⟨j, by omega, hj2, ?_, hj4⟩
        intro j1 h1 h2
        by_cases hji : j1 = i
        · rw [hji]; exact hnot
        · exact hj3 j1 (by omega) h2
      · right
        refine ⟨?_, hj2⟩
        intro j1 h1
        by_cases hji : j1 = i
        · rw [hji]; exact hnot
        · exact hj1 j1 (by omega)

/-- The loop of `allocateConsecutiveSeats` for a `seatCount` that is not
positive: it leaves the object and the list as they are, and it can return
`true` only for `seatCount = 0`. -/
theorem consecutiveLoop_nonpos (r : Nat) (k : Int) (hk : k ≤ 0) (c : Compartment)
    (out : List String) :
    ∀ (remaining i : Nat) (cs : Int) (temp : List Nat), 0 ≤ cs →
      consecutiveLoop r k remaining i cs temp c out = (false, c, out) ∨
        (k = 0 ∧ consecutiveLoop r k remaining i cs temp c out = (true, c, out)) := by
  intro remaining
  induction remaining with
  | zero => intro i cs temp _; left; rfl
  | succ rem ih =>
    intro i cs temp hcs
    unfold consecutiveLoop
    by_cases hv : seatValue c.seats r i = 1
    · simp only [hv, if_true]
      have hne : ¬ cs + 1 = k := by omega
      rw [if_neg hne]
      exact ih (i + 1) (cs + 1) _ (by omega)
    · simp only [hv, if_false]
      by_cases h0 : (0 : Int) = k
      · right
        refine ⟨h0.symm, ?_⟩
        rw [if_pos h0, ← h0]
        simp [commitBlock]
      · rw [if_neg h0]
        exact ih (i + 1) 0 _ (le_refl 0)

/-- The method `allocateConsecutiveSeats` on row `r` for a positive
`seatCount = k`: the block that ends where a run of `k` first ends, or
`false` and nothing changed when the row has no run of `k`. -/
theorem allocateConsecutiveSeats_spec (r k : Nat) (hk : 1 ≤ k) (c : Compartment)
    (out : List String) :
    (∃ j, runEndsAt c.seats r k j ∧ (∀ j1, j1 < j → ¬ runEndsAt c.seats r k j1) ∧
        allocateConsecutiveSeats c r (k : Int) out =
          (true,
            { seats := bookAll (blockAt r k j) c.seats,
              availableSeats := c.availableSeats - (k : Int) },
            out ++ (blockAt r k j).map labelOf)) ∨
      ((∀ j1, ¬ runEndsAt c.seats r k j1) ∧
        allocateConsecutiveSeats c r (k : Int) out = (false, c, out)) := by
  have h := consecutiveLoop_spec r k c out (rowLength c.seats r) 0 0 (by omega) (le_refl 0)
    (by omega) (fun x _ h2 => absurd h2 (by omega)) (Or.inl rfl)
  simp only [Nat.sub_zero, List.range'_zero, Nat.cast_zero] at h
  unfold allocateConsecutiveSeats
  rcases h with ⟨j, _, hj2, hj3, hj4⟩ | ⟨hj1, hj2⟩
  · left
    exact ⟨j, hj2, fun j1 h1 => hj3 j1 (Nat.zero_le _) h1, hj4⟩
  · right
    exact ⟨fun j1 => hj1 j1 (Nat.zero_le _), hj2⟩

/-- The first loop of `allocateSeats` for a positive `seatCount = k`: it
returns the leftmost block of the first row that has a run of `k`, and falls
through with nothing changed when no row has one. -/
theorem consecutiveRows_spec (k : Nat) (hk : 1 ≤ k) (c : Compartment) (out : List String) :
    ∀ (remaining r0 : Nat),
      (∃ r j, r0 ≤ r ∧ r < r0 + remaining ∧ runEndsAt c.seats r k j ∧
          (∀ j1, j1 < j → ¬ runEndsAt c.seats r k j1) ∧
          (∀ r1, r0 ≤ r1 → r1 < r → ∀ j1, ¬ runEndsAt c.seats r1 k j1) ∧
          consecutiveRows (k : Int) remaining r0 c out =
            (true,
              { seats := bookAll (blockAt r k j) c.seats,
                availableSeats := c.availableSeats - (k : Int) },
              out ++ (blockAt r k j).map labelOf)) ∨
        ((∀ r1, r0 ≤ r1 → r1 < r0 + remaining → ∀ j1, ¬ runEndsAt c.seats r1 k j1) ∧
          consecutiveRows (k : Int) remaining r0 c out = (false, c, out)) := by
  intro remaining
  induction remaining with
  | zero =>
    intro r0
    right
    exact ⟨fun r1 h1 h2 => absurd h2 (by omega), rfl⟩
  | succ rem ih =>
    intro r0
    unfold consecutiveRows
    rcases allocateConsecutiveSeats_spec r0 k hk c out with ⟨j, hj1, hj2, hj3⟩ | ⟨hj1, hj2⟩
    · left
      refine ⟨r0, j, le_refl r0, by omega, hj1, hj2, fun r1 h1 h2 => absurd h2 (by omega), ?_⟩
      rw [hj3]
    · rw [hj2]
      simp only []
      rcases ih (r0 + 1) with ⟨r, j, h1, h2, h3, h4, h5, h6⟩ | ⟨h1, h2⟩
      · left
        refine ⟨r, j, by omega, by omega, h3, h4, ?_, h6⟩
        intro r1 hr1 hr2 j1
        by_cases hr : r1 = r0
        · rw [hr]; exact hj1 j1
        · exact h5 r1 (by omega) hr2 j1
      · right
        refine ⟨?_, h2⟩
        intro r1 hr1 hr2 j1
        by_cases hr : r1 = r0
        · rw [hr]; exact hj1 j1
        · exact h1 r1 (by omega) (by omega) j1

/-- The first loop of `allocateSeats` for a `seatCount` that is not positive:
nothing changes, and it can return only for `seatCount = 0`. -/
theorem consecutiveRows_nonpos (k : Int) (hk : k ≤ 0) (c : Compartment) (out : List String) :
    ∀ (remaining r0 : Nat),
      consecutiveRows k remaining r0 c out = (false, c, out) ∨
        (k = 0 ∧ consecutiveRows k remaining r0 c out = (true, c, out)) := by
  intro remaining
  induction remaining with
  | zero => intro r0; left; rfl
  | succ rem ih =>
    intro r0
    unfold consecutiveRows allocateConsecutiveSeats
    rcases consecutiveLoop_nonpos r0 k hk c out (c.seats.getD r0 []).length 0 0 []
      (le_refl 0) with h | ⟨h0, h⟩
    · rw [h]
      exact ih (r0 + 1)
    · right
      refine ⟨h0, ?_⟩
      rw [h]

theorem rowLength_eq_zero_of_le (g : List (List Int)) (r : Nat) (h : g.length ≤ r) :
    rowLength g r = 0 := by
  unfold rowLength
  rw [List.getD_eq_getElem?_getD, List.getElem?_eq_none h]
  rfl

theorem not_runEndsAt_of_le (g : List (List Int)) (r k j : Nat) (h : g.length ≤ r) :
    ¬ runEndsAt g r k j := by
  intro hrun
  have := hrun.2.1
  rw [rowLength_eq_zero_of_le g r h] at this
  omega

/-- The method `allocateSeats` for a positive `seatCount = k`, in closed
form.  Either some row has a run of `k` and the leftmost block of the first
such row is booked and returned; or no row has one and the call books the
first `k` available seats of the grid when there are `k`, and otherwise books
every available seat and fails without changing `availableSeats`. -/
theorem allocateSeats_pos (c : Compartment) (k : Nat) (hk : 1 ≤ k) :
    (∃ r j, r < c.seats.length ∧ runEndsAt c.seats r k j ∧
        (∀ j1, j1 < j → ¬ runEndsAt c.seats r k j1) ∧
        (∀ r1, r1 < r → ∀ j1, ¬ runEndsAt c.seats r1 k j1) ∧
        allocateSeats c (k : Int) =
          (some ((blockAt r k j).map labelOf),
            { seats := bookAll (blockAt r k j) c.seats,
              availableSeats := c.availableSeats - (k : Int) })) ∨
      ((∀ r1 j1, ¬ runEndsAt c.seats r1 k j1) ∧
        allocateSeats c (k : Int) =
          if k ≤ (availablePositions c.seats).length then
            (some (((availablePositions c.seats).take k).map labelOf),
              { seats := bookAll ((availablePositions c.seats).take k) c.seats,
                availableSeats := c.availableSeats - (k : Int) })
          else
            (none,
              { seats := bookAll (availablePositions c.seats) c.seats,
                availableSeats := c.availableSeats })) := by
  unfold allocateSeats
  rcases consecutiveRows_spec k hk c [] c.seats.length 0 with
    ⟨r, j, _, h2, h3, h4, h5, h6⟩ | ⟨h1, h2⟩
  · left
    refine ⟨r, j, by omega, h3, h4, fun r1 hr1 => h5 r1 (Nat.zero_le _) hr1, ?_⟩
    rw [h6]
    simp
  · right
    constructor
    · intro r1 j1
      by_cases hr : r1 < c.seats.length
      · exact h1 r1 (Nat.zero_le _) (by omega) j1
      · exact not_runEndsAt_of_le _ _ _ _ (by omega)
    · rw [h2]
      simp only []
      rw [scatterRows_eq]
      unfold availablePositions
      by_cases hc : k ≤ (availableRows c.seats 0 c.seats.length).length
      · have hc2 : 1 ≤ (k : Int) ∧ (k : Int) ≤ ((availableRows c.seats 0 c.seats.length).length : Int) := by
          omega
        rw [if_pos hc, if_pos hc2]
        simp
      · have hc2 : ¬ (1 ≤ (k : Int) ∧ (k : Int) ≤ ((availableRows c.seats 0 c.seats.length).length : Int)) := by
          omega
        rw [if_neg hc, if_neg hc2]

/-- The method `allocateSeats` for a `seatCount` that is not positive: for 0
on a grid with a booked seat it returns the empty list and changes nothing;
in every other case it books every available seat and fails without changing
`availableSeats`. -/
theorem allocateSeats_nonpos (c : Compartment) (k : Int) (hk : k ≤ 0) :
    (k = 0 ∧ allocateSeats c k = (some [], c)) ∨
      allocateSeats c k =
        (none,
          { seats := bookAll (availablePositions c.seats) c.seats,
            availableSeats := c.availableSeats }) := by
  unfold allocateSeats
  rcases consecutiveRows_nonpos k hk c [] c.seats.length 0 with h | ⟨h0, h⟩
  · right
    rw [h]
    simp only []
    rw [scatterRows_eq]
    have hc : ¬ (1 ≤ k ∧ k ≤ ((availableRows c.seats 0 c.seats.length).length : Int)) := by
      omega
    rw [if_neg hc]
    rfl
  · left
    refine ⟨h0, ?_⟩
    rw [h]

/-! ## Available positions -/

theorem seatValue_eq_one_lt (g : List (List Int)) (r i : Nat) (h : seatValue g r i = 1) :
    r < g.length ∧ i < rowLength g r := by
  unfold seatValue at h
  unfold rowLength
  by_cases hi : i < (g.getD r []).length
  · refine ⟨?_, hi⟩
    by_cases hr : r < g.length
    · exact hr
    · rw [List.getD_eq_getElem?_getD, List.getElem?_eq_none (by omega)] at hi
      simp at hi
  · rw [List.getD_eq_getElem?_getD (g.getD r []) i, List.getElem?_eq_none (by omega)] at h
    simp at h

theorem mem_availableFrom (g : List (List Int)) (r s n : Nat) (p : Nat × Nat) :
    p ∈ availableFrom g r s n ↔
      p.1 = r ∧ s ≤ p.2 ∧ p.2 < s + n ∧ seatValue g r p.2 = 1 := by
  obtain ⟨a, b⟩ := p
  unfold availableFrom
  simp only [List.mem_map, List.mem_filter, List.mem_range'_1, decide_eq_true_eq,
    Prod.mk.injEq]
  constructor
  · rintro ⟨i, ⟨⟨h1, h2⟩, h3⟩, rfl, rfl⟩
    exact ⟨rfl, h1, h2, h3⟩
  · rintro ⟨rfl, h1, h2, h3⟩
    exact ⟨b, ⟨⟨h1, h2⟩, h3⟩, rfl, rfl⟩

theorem mem_availableRows (g : List (List Int)) (s n : Nat) (p : Nat × Nat) :
    p ∈ availableRows g s n ↔ s ≤ p.1 ∧ p.1 < s + n ∧ seatValue g p.1 p.2 = 1 := by
  unfold availableRows
  simp only [List.mem_flatMap, List.mem_range'_1, mem_availableFrom]
  constructor
  · rintro ⟨r, ⟨h1, h2⟩, h3, _, _, h6⟩
    subst h3
    exact ⟨h1, h2, h6⟩
  · rintro ⟨h1, h2, h3⟩
    exact ⟨p.1, ⟨h1, h2⟩, rfl, Nat.zero_le _, by
      have := (seatValue_eq_one_lt g p.1 p.2 h3).2
      omega, h3⟩

/-- A position is in the list of available positions exactly when the grid
holds 1 there. -/
theorem mem_availablePositions (g : List (List Int)) (p : Nat × Nat) :
    p ∈ availablePositions g ↔ seatValue g p.1 p.2 = 1 := by
  unfold availablePositions
  rw [mem_availableRows]
  constructor
  · rintro ⟨_, _, h⟩; exact h
  · intro h
    exact ⟨Nat.zero_le _, by have := (seatValue_eq_one_lt g p.1 p.2 h).1; omega, h⟩

theorem pairwise_availableFrom (g : List (List Int)) (r s n : Nat) :
    (availableFrom g r s n).Pairwise rowMajorLt := by
  unfold availableFrom
  rw [List.pairwise_map]
  apply List.Pairwise.filter
  exact (List.pairwise_lt_range' s n).imp (fun h => Or.inr ⟨rfl, h⟩)

theorem pairwise_availableRows (g : List (List Int)) (s n : Nat) :
    (availableRows g s n).Pairwise rowMajorLt := by
  unfold availableRows
  rw [List.pairwise_flatMap]
  constructor
  · intro r _
    exact pairwise_availableFrom _ _ _ _
  · refine (List.pairwise_lt_range' s n).imp ?_
    intro a b hab x hx y hy
    left
    rw [fst_of_mem_availableFrom _ _ _ _ _ hx, fst_of_mem_availableFrom _ _ _ _ _ hy]
    exact hab

/-- The list of available positions is in strictly increasing row-major
order. -/
theorem pairwise_availablePositions (g : List (List Int)) :
    (availablePositions g).Pairwise rowMajorLt :=
  pairwise_availableRows g 0 g.length

theorem pairwise_blockAt (r k j : Nat) : (blockAt r k j).Pairwise rowMajorLt := by
  unfold blockAt
  rw [List.pairwise_map]
  exact (List.pairwise_lt_range' _ _).imp (fun h => Or.inr ⟨rfl, h⟩)

theorem mem_blockAt (r k j : Nat) (p : Nat × Nat) :
    p ∈ blockAt r k j ↔ p.1 = r ∧ j + 1 - k ≤ p.2 ∧ p.2 < j + 1 - k + k := by
  obtain ⟨a, b⟩ := p
  unfold blockAt
  simp only [List.mem_map, List.mem_range'_1, Prod.mk.injEq]
  constructor
  · rintro ⟨i, ⟨h1, h2⟩, rfl, rfl⟩
    exact ⟨rfl, h1, h2⟩
  · rintro ⟨rfl, h1, h2⟩
    exact ⟨b, ⟨h1, h2⟩, rfl, rfl⟩

theorem length_blockAt (r k j : Nat) : (blockAt r k j).length = k := by
  simp [blockAt]

theorem blockAt_available (g : List (List Int)) (r k j : Nat) (h : runEndsAt g r k j) :
    ∀ p ∈ blockAt r k j, seatValue g p.1 p.2 = 1 := by
  intro p hp
  rw [mem_blockAt] at hp
  obtain ⟨h1, h2, h3⟩ := hp
  rw [h1]
  exact h.2.2 p.2 h2 (by have := h.1; omega)

theorem rowMajorLt_ne (p q : Nat × Nat) (h : rowMajorLt p q) : p ≠ q := by
  intro hpq
  subst hpq
  rcases h with h | ⟨_, h⟩ <;> omega

theorem nodup_of_pairwise_rowMajorLt (ps : List (Nat × Nat)) (h : ps.Pairwise rowMajorLt) :
    ps.Nodup :=
  h.imp (fun hab => rowMajorLt_ne _ _ hab)

/-! ## Counting available seats -/

theorem count_set_booked (row : List Int) (i : Nat) (h : row.getD i 0 = 1) :
    (row.set i 0).count 1 + 1 = row.count 1 := by
  induction row generalizing i with
  | nil => simp at h
  | cons s rest ih =>
    cases i with
    | zero =>
      simp only [List.getD_cons_zero] at h
      subst h
      simp
    | succ i =>
      simp only [List.getD_cons_succ] at h
      have := ih i h
      simp only [List.set_cons_succ, List.count_cons]
      omega

theorem countAvailable_setBooked (g : List (List Int)) (r i : Nat)
    (h : seatValue g r i = 1) :
    countAvailable (setBooked g r i) + 1 = countAvailable g := by
  induction g generalizing r with
  | nil => simp [seatValue] at h
  | cons row rest ih =>
    cases r with
    | zero =>
      have h1 : row.getD i 0 = 1 := h
      have := count_set_booked row i h1
      simp only [countAvailable, setBooked, List.getD_cons_zero, List.set_cons_zero,
        List.map_cons, List.sum_cons]
      omega
    | succ r =>
      have h1 : seatValue rest r i = 1 := h
      have := ih r h1
      simp only [countAvailable, setBooked, List.getD_cons_succ, List.set_cons_succ,
        List.map_cons, List.sum_cons] at this ⊢
      omega

/-- Booking a list of distinct available seats lowers the number of
available seats of the grid by the length of the list. -/
theorem countAvailable_bookAll (ps : List (Nat × Nat)) (g : List (List Int))
    (hnd : ps.Nodup) (hav : ∀ p ∈ ps, seatValue g p.1 p.2 = 1) :
    countAvailable (bookAll ps g) + ps.length = countAvailable g := by
  induction ps generalizing g with
  | nil => simp [bookAll_nil]
  | cons p ps ih =>
    rw [bookAll_cons]
    have h1 := countAvailable_setBooked g p.1 p.2 (hav p (List.mem_cons_self _ _))
    have hnd2 := (List.nodup_cons.mp hnd)
    have h2 := ih (setBooked g p.1 p.2) hnd2.2 (by
      intro q hq
      rw [seatValue_setBooked]
      have hne : ¬ (p.1 = q.1 ∧ p.2 = q.2) := by
        rintro ⟨ha, hb⟩
        have : p = q := Prod.ext ha hb
        rw [this] at hnd2
        exact hnd2.1 hq
      rw [if_neg hne]
      exact hav q (List.mem_cons_of_mem _ hq))
    simp only [List.length_cons]
    omega

theorem seatValue_of_mem (g : List (List Int)) (row : List Int) (s : Int)
    (hrow : row ∈ g) (hs : s ∈ row) : ∃ r i, seatValue g r i = s := by
  obtain ⟨r, hr, rfl⟩ := List.getElem_of_mem hrow
  obtain ⟨i, hi, rfl⟩ := List.getElem_of_mem hs
  refine ⟨r, i, ?_⟩
  unfold seatValue
  rw [List.getD_eq_getElem g [] hr, List.getD_eq_getElem _ 0 hi]

theorem countAvailable_eq_zero (g : List (List Int)) (h : ∀ r i, seatValue g r i ≠ 1) :
    countAvailable g = 0 := by
  unfold countAvailable
  rw [List.sum_eq_zero_iff]
  intro x hx
  rw [List.mem_map] at hx
  obtain ⟨row, hrow, rfl⟩ := hx
  rw [List.count_eq_zero]
  intro hmem
  obtain ⟨r, i, hri⟩ := seatValue_of_mem g row 1 hrow hmem
  exact h r i hri

theorem seatValue_bookAll_availablePositions (g : List (List Int)) (r i : Nat) :
    seatValue (bookAll (availablePositions g) g) r i ≠ 1 := by
  rw [seatValue_bookAll]
  by_cases h : (r, i) ∈ availablePositions g
  · rw [if_pos h]; decide
  · rw [if_neg h]
    intro h1
    exact h ((mem_availablePositions g (r, i)).mpr h1)

/-- The list of available positions has as many entries as the grid has
available seats. -/
theorem length_availablePositions (g : List (List Int)) :
    (availablePositions g).length = countAvailable g := by
  have h1 := countAvailable_bookAll (availablePositions g) g
    (nodup_of_pairwise_rowMajorLt _ (pairwise_availablePositions g))
    (fun p hp => (mem_availablePositions g p).mp hp)
  have h2 := countAvailable_eq_zero _ (seatValue_bookAll_availablePositions g)
  omega

/-! ## One call of `allocateSeats`, summarised -/

/-- Every call of `allocateSeats` books a list `ps` of distinct available
positions, in row-major order.  On success the labels of `ps` are returned,
`ps` has `seatCount` entries and `availableSeats` goes down by `seatCount`;
on failure `ps` is every available position and `availableSeats` is as it
was, and the request was not positive or asked for more than the grid had. -/
theorem allocateSeats_summary (c : Compartment) (k : Int) :
    ∃ ps : List (Nat × Nat), ps.Pairwise rowMajorLt ∧
      (∀ p ∈ ps, seatValue c.seats p.1 p.2 = 1) ∧
      (allocateSeats c k).2.seats = bookAll ps c.seats ∧
      (((allocateSeats c k).1 = some (ps.map labelOf) ∧ (ps.length : Int) = k ∧
          (allocateSeats c k).2.availableSeats = c.availableSeats - k) ∨
        ((allocateSeats c k).1 = none ∧ ps = availablePositions c.seats ∧
          (allocateSeats c k).2.availableSeats = c.availableSeats ∧
          (k ≤ 0 ∨ (countAvailable c.seats : Int) < k))) := by
  have hfail : ∀ hk : k ≤ 0 ∨ (countAvailable c.seats : Int) < k,
      allocateSeats c k =
        (none, { seats := bookAll (availablePositions c.seats) c.seats,
                 availableSeats := c.availableSeats }) →
      ∃ ps : List (Nat × Nat), ps.Pairwise rowMajorLt ∧
      (∀ p ∈ ps, seatValue c.seats p.1 p.2 = 1) ∧
      (allocateSeats c k).2.seats = bookAll ps c.seats ∧
      (((allocateSeats c k).1 = some (ps.map labelOf) ∧ (ps.length : Int) = k ∧
          (allocateSeats c k).2.availableSeats = c.availableSeats - k) ∨
        ((allocateSeats c k).1 = none ∧ ps = availablePositions c.seats ∧
          (allocateSeats c k).2.availableSeats = c.availableSeats ∧
          (k ≤ 0 ∨ (countAvailable c.seats : Int) < k))) := by
    intro hk h
    refine ⟨availablePositions c.seats, pairwise_availablePositions _,
      fun p hp => (mem_availablePositions _ p).mp hp, ?_, Or.inr ⟨?_, rfl, ?_, hk⟩⟩ <;> rw [h]
  by_cases hk : k ≤ 0
  · rcases allocateSeats_nonpos c k hk with ⟨h0, h⟩ | h
    · refine ⟨[], List.Pairwise.nil, fun p hp => absurd hp (List.not_mem_nil p), ?_,
        Or.inl ⟨?_, ?_, ?_⟩⟩
      · rw [h]; rfl
      · rw [h]; rfl
      · rw [h0]; rfl
      · rw [h, h0]; simp
    · exact hfail (Or.inl hk) h
  · obtain ⟨n, rfl⟩ : ∃ n : Nat, k = (n : Int) := ⟨k.toNat, by omega⟩
    have hn : 1 ≤ n := by omega
    rcases allocateSeats_pos c n hn with ⟨r, j, _, hrun, _, _, h⟩ | ⟨_, h⟩
    · refine ⟨blockAt r n j, pairwise_blockAt r n j, blockAt_available _ _ _ _ hrun, ?_,
        Or.inl ⟨?_, ?_, ?_⟩⟩
      · rw [h]
      · rw [h]
      · rw [length_blockAt]
      · rw [h]
    · by_cases hc : n ≤ (availablePositions c.seats).length
      · rw [if_pos hc] at h
        refine ⟨(availablePositions c.seats).take n,
          (pairwise_availablePositions _).sublist (List.take_sublist _ _),
          fun p hp => (mem_availablePositions _ p).mp (List.mem_of_mem_take hp), ?_,
          Or.inl ⟨?_, ?_, ?_⟩⟩
        · rw [h]
        · rw [h]
        · rw [List.length_take, Nat.min_eq_left hc]
        · rw [h]
      · rw [if_neg hc] at h
        rw [length_availablePositions] at hc
        exact hfail (Or.inr (by omega)) h

/-! ## Shape, seat states and labels -/

theorem seatAt_eq_some_iff (g : List (List Int)) (r i : Nat) (v : Int) :
    seatAt g r i = some v ↔ r < g.length ∧ i < rowLength g r ∧ seatValue g r i = v := by
  unfold seatAt rowLength seatValue
  by_cases hr : r < g.length
  · rw [List.getElem?_eq_getElem hr, List.getD_eq_getElem g [] hr]
    simp only [Option.some_bind]
    by_cases hi : i < g[r].length
    · rw [List.getElem?_eq_getElem hi, List.getD_eq_getElem _ 0 hi]
      simp [hr, hi]
    · rw [List.getElem?_eq_none (by omega)]
      simp [hi]
  · rw [List.getElem?_eq_none (by omega)]
    simp [hr]

theorem seatValue_binary (c : Compartment) (h : binarySeats c) (r i : Nat) :
    seatValue c.seats r i = 0 ∨ seatValue c.seats r i = 1 := by
  by_cases hr : r < c.seats.length
  · by_cases hi : i < (c.seats[r]).length
    · have : seatValue c.seats r i = (c.seats[r])[i] := by
        unfold seatValue
        rw [List.getD_eq_getElem c.seats [] hr, List.getD_eq_getElem _ 0 hi]
      rw [this]
      exact h _ (List.getElem_mem hr) _ (List.getElem_mem hi)
    · left
      unfold seatValue
      rw [List.getD_eq_getElem c.seats [] hr, List.getD_eq_getElem?_getD,
        List.getElem?_eq_none (by omega)]
      rfl
  · left
    unfold seatValue
    rw [List.getD_eq_getElem?_getD c.seats, List.getElem?_eq_none (by omega)]
    rfl

theorem rowLength_eq_getD (g : List (List Int)) (r : Nat) :
    rowLength g r = (g.map List.length).getD r 0 := by
  unfold rowLength
  by_cases hr : r < g.length
  · rw [List.getD_eq_getElem g [] hr, List.getD_eq_getElem _ 0 (by simpa using hr)]
    simp
  · rw [List.getD_eq_getElem?_getD, List.getElem?_eq_none (by omega),
      List.getD_eq_getElem?_getD, List.getElem?_eq_none (by simp; omega)]
    rfl

theorem fixedShape_length (c : Compartment) (h : fixedShape c) : c.seats.length = 12 := by
  have := congrArg List.length h
  simpa [rowLengths] using this

theorem fixedShape_rowLength_le (c : Compartment) (h : fixedShape c) (r : Nat) :
    rowLength c.seats r ≤ 7 := by
  rw [rowLength_eq_getD, h]
  by_cases hr : r < 12
  · interval_cases r <;> decide
  · rw [List.getD_eq_getElem?_getD, List.getElem?_eq_none (by simp [rowLengths]; omega)]
    simp

theorem rowName_injective :
    ∀ r < 12, ∀ r1 < 12,
      rowNames.toList.getD r (Char.ofNat 0) = rowNames.toList.getD r1 (Char.ofNat 0) →
      r = r1 := by
  decide

theorem seatNumber_injective :
    ∀ i < 7, ∀ i1 < 7, toString (i + 1) = toString (i1 + 1) → i = i1 := by
  decide

/-- Two seats of the fixed grid with the same label are the same seat. -/
theorem seatLabel_injective (r i r1 i1 : Nat) (hr : r < 12) (hi : i < 7) (hr1 : r1 < 12)
    (hi1 : i1 < 7) (h : seatLabel r i = seatLabel r1 i1) : r = r1 ∧ i = i1 := by
  unfold seatLabel at h
  have h2 := congrArg String.data h
  simp only [String.data_append, String.singleton, String.push, String.append,
    List.nil_append, List.append_nil, List.singleton_append, String.data] at h2
  injection h2 with ha hb
  have hb2 : toString (i + 1) = toString (i1 + 1) := String.ext hb
  exact ⟨rowName_injective r hr r1 hr1 ha, seatNumber_injective i hi i1 hi1 hb2⟩

/-! ## The claims -/

/-- Claim C1: on a grid of the fixed shape whose counter `availableSeats`
equals the number of available seats, a successful `allocateSeats` with a
positive `seatCount` leaves a state in which `availableSeats` again equals
the number of available seats of the grid. -/
theorem allocateSeats_success_keeps_count (c : Compartment) (seatCount : Int)
    (labels : List String) (hshape : fixedShape c)
    (hinv : c.availableSeats = (countAvailable c.seats : Int)) (hpos : 0 < seatCount)
    (hok : (allocateSeats c seatCount).1 = some labels) :
    (allocateSeats c seatCount).2.availableSeats =
      (countAvailable (allocateSeats c seatCount).2.seats : Int) := by
  obtain ⟨ps, hpw, hav, hseats, hres⟩ := allocateSeats_summary c seatCount
  have hcount := countAvailable_bookAll ps c.seats (nodup_of_pairwise_rowMajorLt ps hpw) hav
  rcases hres with ⟨_, hlen, havail⟩ | ⟨hnone, _⟩
  · rw [havail, hseats, hinv]
    omega
  · rw [hnone] at hok
    exact absurd hok (by simp)

/-- An instance: the request for 10 seats on the freshly constructed Compartment. -/
theorem allocateSeats_success_keeps_count_witness :
    fixedShape new ∧ new.availableSeats = (countAvailable new.seats : Int) ∧
      (allocateSeats new 10).2.availableSeats =
        (countAvailable (allocateSeats new 10).2.seats : Int) :=
  ⟨by decide, by decide,
    allocateSeats_success_keeps_count new 10
      ["A1", "A2", "A3", "A4", "A5", "A6", "A7", "B1", "B2", "B3"]
      (by decide) (by decide) (by decide) (by decide)⟩

/-- Claim C2, at the input where the code departs from it: on a freshly
constructed Compartment the call `allocateSeats(81)` fails, books all 80
seats and leaves `availableSeats` at 80, so the counter no longer equals the
number of available seats of the grid (which is 0). -/
theorem allocateSeats_failure_breaks_count :
    (allocateSeats new 81).1 = none ∧
      (allocateSeats new 81).2.availableSeats = 80 ∧
      countAvailable (allocateSeats new 81).2.seats = 0 := by
  decide

/-- Claim C3: on a grid of the fixed shape and for a positive `seatCount`,
`allocateSeats` returns the failure signal exactly when the grid has fewer
than `seatCount` available seats; otherwise it returns a list of labels. -/
theorem allocateSeats_fails_iff (c : Compartment) (seatCount : Int) (hshape : fixedShape c)
    (hpos : 0 < seatCount) :
    ((allocateSeats c seatCount).1 = none ↔ (countAvailable c.seats : Int) < seatCount) ∧
      (¬ (countAvailable c.seats : Int) < seatCount →
        ∃ labels, (allocateSeats c seatCount).1 = some labels) := by
  obtain ⟨ps, hpw, hav, hseats, hres⟩ := allocateSeats_summary c seatCount
  have hcount := countAvailable_bookAll ps c.seats (nodup_of_pairwise_rowMajorLt ps hpw) hav
  rcases hres with ⟨hsome, hlen, _⟩ | ⟨hnone, _, _, hk⟩
  · refine ⟨⟨fun h => ?_, fun h => ?_⟩, fun _ => ⟨_, hsome⟩⟩
    · rw [hsome] at h
      exact absurd h (by simp)
    · omega
  · have hlt : (countAvailable c.seats : Int) < seatCount := by
      rcases hk with h | h
      · omega
      · exact h
    exact ⟨⟨fun _ => hlt, fun _ => hnone⟩, fun h => absurd hlt h⟩

/-- An instance: the request for 81 seats on the freshly constructed Compartment. -/
theorem allocateSeats_fails_iff_witness :
    fixedShape new ∧
      (((allocateSeats new 81).1 = none ↔ (countAvailable new.seats : Int) < 81) ∧
        (¬ (countAvailable new.seats : Int) < 81 →
          ∃ labels, (allocateSeats new 81).1 = some labels)) :=
  ⟨by decide, allocateSeats_fails_iff new 81 (by decide) (by decide)⟩

/-- Claim C4: on a grid of the fixed shape and for a positive `seatCount = k`,
if some row contains `k` consecutive available seats, then `allocateSeats`
succeeds and returns exactly the labels, left to right, of the seats
`j-k+1 .. j` of row `r`, where `r` is the first row that contains a run of
`k` and `j` is the smallest position of row `r` at which a run of `k` ends. -/
theorem allocateSeats_leftmost_block (c : Compartment) (k : Nat) (hshape : fixedShape c)
    (hpos : 0 < k) (hrun : ∃ r0 j0, runEndsAt c.seats r0 k j0) :
    ∃ r j, runEndsAt c.seats r k j ∧
      (∀ r1, r1 < r → ∀ j1, ¬ runEndsAt c.seats r1 k j1) ∧
      (∀ j1, j1 < j → ¬ runEndsAt c.seats r k j1) ∧
      (allocateSeats c (k : Int)).1 =
        some ((List.range' (j + 1 - k) k).map (fun i => seatLabel r i)) := by
  rcases allocateSeats_pos c k hpos with ⟨r, j, _, h1, h2, h3, h4⟩ | ⟨hno, _⟩
  · refine ⟨r, j, h1, h3, h2, ?_⟩
    rw [h4]
    simp [blockAt, labelOf, List.map_map, Function.comp_def]
  · obtain ⟨r0, j0, h0⟩ := hrun
    exact absurd h0 (hno r0 j0)

/-- An instance: a request for 3 seats after A1-A7 and B1-B3 are booked; the run
of 3 that ends first is B4-B6. -/
theorem allocateSeats_leftmost_block_witness :
    fixedShape (allocateSeats new 10).2 ∧
      ∃ r j, runEndsAt (allocateSeats new 10).2.seats r 3 j ∧
        (∀ r1, r1 < r → ∀ j1, ¬ runEndsAt (allocateSeats new 10).2.seats r1 3 j1) ∧
        (∀ j1, j1 < j → ¬ runEndsAt (allocateSeats new 10).2.seats r 3 j1) ∧
        (allocateSeats (allocateSeats new 10).2 ((3 : Nat) : Int)).1 =
          some ((List.range' (j + 1 - 3) 3).map (fun i => seatLabel r i)) :=
  ⟨by decide,
    allocateSeats_leftmost_block (allocateSeats new 10).2 3 (by decide) (by decide)
      ⟨1, 5, by decide, by decide, by
        intro x h1 h2
        have hx : x = 3 ∨ x = 4 ∨ x = 5 := by omega
        rcases hx with rfl | rfl | rfl <;> decide⟩⟩

/-- Claim C5: on a grid of the fixed shape and for a positive `seatCount = k`,
if no row contains `k` consecutive available seats but the grid has at least
`k` available seats, then `allocateSeats` succeeds and returns exactly the
labels of the first `k` available seats of the grid in row-major order, a
list of exactly `k` elements. -/
theorem allocateSeats_scatter (c : Compartment) (k : Nat) (hshape : fixedShape c)
    (hpos : 0 < k) (hnorun : ∀ r j, ¬ runEndsAt c.seats r k j)
    (hcount : k ≤ countAvailable c.seats) :
    (allocateSeats c (k : Int)).1 =
        some (((availablePositions c.seats).take k).map labelOf) ∧
      (((availablePositions c.seats).take k).map labelOf).length = k := by
  have hlen := length_availablePositions c.seats
  rcases allocateSeats_pos c k hpos with ⟨r, j, _, h1, _⟩ | ⟨_, h⟩
  · exact absurd h1 (hnorun r j)
  · rw [if_pos (by omega)] at h
    refine ⟨by rw [h], ?_⟩
    rw [List.length_map, List.length_take]
    omega

/-- An instance: the request for 10 seats on the freshly constructed Compartment,
where no row has 10 seats. -/
theorem allocateSeats_scatter_witness :
    fixedShape new ∧ 10 ≤ countAvailable new.seats ∧
      ((allocateSeats new ((10 : Nat) : Int)).1 =
          some (((availablePositions new.seats).take 10).map labelOf) ∧
        (((availablePositions new.seats).take 10).map labelOf).length = 10) :=
  ⟨by decide, by decide,
    allocateSeats_scatter new 10 (by decide) (by decide)
      (by
        intro r j h
        have h1 := fixedShape_rowLength_le new (by decide) r
        have h2 := h.1
        have h3 := h.2.1
        omega)
      (by decide)⟩

/-- Claim C6: on a grid of the fixed shape and for every integer `seatCount`,
when `allocateSeats` succeeds the returned list has exactly `seatCount`
labels and `availableSeats` after the call is `availableSeats` before the
call minus `seatCount`. -/
theorem allocateSeats_success_size (c : Compartment) (seatCount : Int)
    (labels : List String) (hshape : fixedShape c)
    (hok : (allocateSeats c seatCount).1 = some labels) :
    (labels.length : Int) = seatCount ∧
      (allocateSeats c seatCount).2.availableSeats = c.availableSeats - seatCount := by
  obtain ⟨ps, _, _, _, hres⟩ := allocateSeats_summary c seatCount
  rcases hres with ⟨hsome, hlen, havail⟩ | ⟨hnone, _⟩
  · rw [hsome] at hok
    injection hok with hok
    rw [← hok, List.length_map]
    exact ⟨hlen, havail⟩
  · rw [hnone] at hok
    exact absurd hok (by simp)

/-- An instance: the request for 3 seats on the freshly constructed Compartment. -/
theorem allocateSeats_success_size_witness :
    fixedShape new ∧
      ((["A1", "A2", "A3"].length : Int) = 3 ∧
        (allocateSeats new 3).2.availableSeats = new.availableSeats - 3) :=
  ⟨by decide,
    allocateSeats_success_size new 3 ["A1", "A2", "A3"] (by decide) (by decide)⟩

theorem map_length_bookAll (ps : List (Nat × Nat)) (g : List (List Int)) :
    (bookAll ps g).map List.length = g.map List.length := by
  apply List.ext_getElem
  · simp [length_bookAll]
  · intro r h1 h2
    have h := rowLength_bookAll ps g r
    rw [rowLength_eq_getD, rowLength_eq_getD, List.getD_eq_getElem _ 0 h1,
      List.getD_eq_getElem _ 0 h2] at h
    exact h

/-- Claim C7: on a grid of the fixed shape whose seats are all available or
booked and for a positive `seatCount`, when `allocateSeats` returns the
failure signal every seat of the grid is booked after the call (the grid
keeps its shape) and `availableSeats` has the value it had before. -/
theorem allocateSeats_failure_books_all (c : Compartment) (seatCount : Int)
    (hshape : fixedShape c) (hbin : binarySeats c) (hpos : 0 < seatCount)
    (hfail : (allocateSeats c seatCount).1 = none) :
    fixedShape (allocateSeats c seatCount).2 ∧
      (∀ row ∈ (allocateSeats c seatCount).2.seats, ∀ s ∈ row, s = 0) ∧
      (allocateSeats c seatCount).2.availableSeats = c.availableSeats := by
  obtain ⟨ps, _, _, hseats, hres⟩ := allocateSeats_summary c seatCount
  rcases hres with ⟨hsome, _⟩ | ⟨_, hps, havail, _⟩
  · rw [hsome] at hfail
    exact absurd hfail (by simp)
  · refine ⟨?_, ?_, havail⟩
    · unfold fixedShape
      rw [hseats, map_length_bookAll]
      exact hshape
    · intro row hrow s hs
      obtain ⟨r, i, hri⟩ := seatValue_of_mem _ row s hrow hs
      rw [hseats, hps] at hri
      have hne := seatValue_bookAll_availablePositions c.seats r i
      rw [hri] at hne
      rw [seatValue_bookAll] at hri
      by_cases hmem : (r, i) ∈ availablePositions c.seats
      · rw [if_pos hmem] at hri
        exact hri.symm
      · rw [if_neg hmem] at hri
        rcases seatValue_binary c hbin r i with h | h
        · rw [← hri]; exact h
        · rw [hri] at h
          exact absurd h hne

/-- An instance: a request for 71 seats when 70 are left. -/
theorem allocateSeats_failure_books_all_witness :
    fixedShape (allocateSeats new 10).2 ∧ binarySeats (allocateSeats new 10).2 ∧
      (allocateSeats (allocateSeats new 10).2 71).1 = none ∧
      (fixedShape (allocateSeats (allocateSeats new 10).2 71).2 ∧
        (∀ row ∈ (allocateSeats (allocateSeats new 10).2 71).2.seats, ∀ s ∈ row, s = 0) ∧
        (allocateSeats (allocateSeats new 10).2 71).2.availableSeats =
          (allocateSeats new 10).2.availableSeats) :=
  ⟨by decide, by decide, by decide,
    allocateSeats_failure_books_all (allocateSeats new 10).2 71
      (by decide) (by decide) (by decide) (by decide)⟩

/-- Claim C8, at the input where the code departs from it: on a freshly
constructed Compartment `allocateSeats(81)` fails, and in the state it leaves
`allocateSeats(1)` fails too, although `allocateSeats(1)` on the state before
the failed call returns the seat A1. -/
theorem failed_request_affects_later_requests :
    (allocateSeats new 81).1 = none ∧
      (allocateSeats (allocateSeats new 81).2 1).1 = none ∧
      (allocateSeats new 1).1 = some ["A1"] := by
  decide

/-- Claim C9: on a grid of the fixed shape and for every integer `seatCount`,
every seat that is booked before `allocateSeats` is still booked after it,
whether the call succeeds or fails, and `checkAvailability` changes no seat
at all. -/
theorem booked_seat_stays_booked (c : Compartment) (seatCount : Int)
    (hshape : fixedShape c) :
    (∀ r i, seatAt c.seats r i = some 0 →
        seatAt (allocateSeats c seatCount).2.seats r i = some 0) ∧
      (checkAvailabilityCall c seatCount).2.seats = c.seats := by
  refine ⟨?_, rfl⟩
  obtain ⟨ps, _, _, hseats, _⟩ := allocateSeats_summary c seatCount
  intro r i h
  rw [seatAt_eq_some_iff] at h ⊢
  rw [hseats, length_bookAll, rowLength_bookAll, seatValue_bookAll]
  refine ⟨h.1, h.2.1, ?_⟩
  by_cases hmem : (r, i) ∈ ps
  · rw [if_pos hmem]
  · rw [if_neg hmem]; exact h.2.2

/-- An instance: a request for 78 seats after A1-A3 are booked. -/
theorem booked_seat_stays_booked_witness :
    fixedShape (allocateSeats new 3).2 ∧
      ((∀ r i, seatAt (allocateSeats new 3).2.seats r i = some 0 →
          seatAt (allocateSeats (allocateSeats new 3).2 78).2.seats r i = some 0) ∧
        (checkAvailabilityCall (allocateSeats new 3).2 78).2.seats =
          (allocateSeats new 3).2.seats) :=
  ⟨by decide, booked_seat_stays_booked (allocateSeats new 3).2 78 (by decide)⟩

/-- Claim C10: on a grid of the fixed shape and for a positive `seatCount`,
when `allocateSeats` succeeds the returned labels name seats of the grid in
strictly increasing row-major order (row A before row L, left to right
within a row), and no label occurs twice in the list. -/
theorem allocateSeats_labels_increasing (c : Compartment) (seatCount : Int)
    (labels : List String) (hshape : fixedShape c) (hpos : 0 < seatCount)
    (hok : (allocateSeats c seatCount).1 = some labels) :
    (∃ ps : List (Nat × Nat), labels = ps.map labelOf ∧ ps.Pairwise rowMajorLt ∧
        ∀ p ∈ ps, p.1 < c.seats.length ∧ p.2 < rowLength c.seats p.1) ∧
      labels.Nodup := by
  obtain ⟨ps, hpw, hav, _, hres⟩ := allocateSeats_summary c seatCount
  rcases hres with ⟨hsome, _, _⟩ | ⟨hnone, _⟩
  · rw [hsome] at hok
    injection hok with hok
    have hin : ∀ p ∈ ps, p.1 < c.seats.length ∧ p.2 < rowLength c.seats p.1 :=
      fun p hp => seatValue_eq_one_lt c.seats p.1 p.2 (hav p hp)
    refine ⟨⟨ps, hok.symm, hpw, hin⟩, ?_⟩
    rw [← hok]
    refine List.Nodup.map_on ?_ (nodup_of_pairwise_rowMajorLt ps hpw)
    intro p hp q hq hpq
    have h12 := fixedShape_length c hshape
    have hp1 := hin p hp
    have hq1 := hin q hq
    have hp2 := fixedShape_rowLength_le c hshape p.1
    have hq2 := fixedShape_rowLength_le c hshape q.1
    have := seatLabel_injective p.1 p.2 q.1 q.2 (by omega) (by omega) (by omega) (by omega) hpq
    exact Prod.ext this.1 this.2
  · rw [hnone] at hok
    exact absurd hok (by simp)

/-- An instance: the request for 10 seats on the freshly constructed Compartment. -/
theorem allocateSeats_labels_increasing_witness :
    fixedShape new ∧
      ((∃ ps : List (Nat × Nat),
          ["A1", "A2", "A3", "A4", "A5", "A6", "A7", "B1", "B2", "B3"] = ps.map labelOf ∧
          ps.Pairwise rowMajorLt ∧
          ∀ p ∈ ps, p.1 < new.seats.length ∧ p.2 < rowLength new.seats p.1) ∧
        ["A1", "A2", "A3", "A4", "A5", "A6", "A7", "B1", "B2", "B3"].Nodup) :=
  ⟨by decide,
    allocateSeats_labels_increasing new 10
      ["A1", "A2", "A3", "A4", "A5", "A6", "A7", "B1", "B2", "B3"]
      (by decide) (by decide) (by decide)⟩

/-- Claim C11: the freshly constructed Compartment has 12 rows and 80 seats,
all available, with `availableSeats = 80`; on it `checkAvailability` returns
true for every `seatCount` from 1 to 80 and false for 81. -/
theorem checkAvailability_new :
    (new.seats.length = 12 ∧ (new.seats.map List.length).sum = 80 ∧
        countAvailable new.seats = 80 ∧ new.availableSeats = 80) ∧
      (∀ seatCount : Int, 1 ≤ seatCount → seatCount ≤ 80 →
        checkAvailability new seatCount = true) ∧
      checkAvailability new 81 = false := by
  refine ⟨by decide, ?_, by decide⟩
  intro seatCount _ h80
  unfold checkAvailability
  rw [decide_eq_true_eq]
  exact h80

/-- An instance: `checkAvailability(80)` on the freshly constructed
Compartment. -/
theorem checkAvailability_new_witness : checkAvailability new 80 = true :=
  checkAvailability_new.2.1 80 (by decide) (by decide)

/-- Claim C12: for every `seatCount = k` with `1 ≤ k ≤ 7`, `allocateSeats` on
the freshly constructed Compartment succeeds and returns exactly the list
A1, A2, ..., Ak. -/
theorem allocateSeats_new_first_row (k : Nat) (h1 : 1 ≤ k) (h7 : k ≤ 7) :
    (allocateSeats new (k : Int)).1 =
      some (["A1", "A2", "A3", "A4", "A5", "A6", "A7"].take k) := by
  interval_cases k <;> decide

/-- An instance: the request for 3 seats returns A1, A2, A3. -/
theorem allocateSeats_new_first_row_witness :
    (allocateSeats new ((3 : Nat) : Int)).1 =
      some (["A1", "A2", "A3", "A4", "A5", "A6", "A7"].take 3) ∧
      ["A1", "A2", "A3", "A4", "A5", "A6", "A7"].take 3 = ["A1", "A2", "A3"] :=
  ⟨allocateSeats_new_first_row 3 (by decide) (by decide), by decide⟩

/-- Claim C13: on the freshly constructed Compartment `allocateSeats(7)`
returns A1..A7 and leaves `availableSeats = 73`; a second `allocateSeats(7)`
on the resulting state returns B1..B7 and leaves `availableSeats = 66`. -/
theorem allocateSeats_seven_twice :
    (allocateSeats new 7).1 = some ["A1", "A2", "A3", "A4", "A5", "A6", "A7"] ∧
      (allocateSeats new 7).2.availableSeats = 73 ∧
      (allocateSeats (allocateSeats new 7).2 7).1 =
        some ["B1", "B2", "B3", "B4", "B5", "B6", "B7"] ∧
      (allocateSeats (allocateSeats new 7).2 7).2.availableSeats = 66 := by
  decide

/-- Claim C14: in the state where every seat of rows A to K is booked and the
three seats of row L are available (whatever `availableSeats` holds),
`allocateConsecutiveSeats` with `seatCount = 3` returns false for each of the
rows A-K and true for row L, so the first loop of `allocateSeats` returns
with L1, L2, L3 and `allocateSeats(3)` returns exactly that list without
entering the second loop. -/
theorem allocateSeats_last_row (availableSeats : Int) :
    (∀ rowIndex, rowIndex < 11 →
        allocateConsecutiveSeats ⟨lastRowFreeSeats, availableSeats⟩ rowIndex 3 [] =
          (false, ⟨lastRowFreeSeats, availableSeats⟩, [])) ∧
      allocateConsecutiveSeats ⟨lastRowFreeSeats, availableSeats⟩ 11 3 [] =
        (true, ⟨allBookedSeats, availableSeats - 3⟩, ["L1", "L2", "L3"]) ∧
      consecutiveRows 3 12 0 ⟨lastRowFreeSeats, availableSeats⟩ [] =
        (true, ⟨allBookedSeats, availableSeats - 3⟩, ["L1", "L2", "L3"]) ∧
      allocateSeats ⟨lastRowFreeSeats, availableSeats⟩ 3 =
        (some ["L1", "L2", "L3"], ⟨allBookedSeats, availableSeats - 3⟩) := by
  refine ⟨?_, rfl, rfl, rfl⟩
  intro rowIndex h
  interval_cases rowIndex <;> rfl

/-- An instance: row A in the state with `availableSeats = 3`. -/
theorem allocateSeats_last_row_witness :
    allocateConsecutiveSeats ⟨lastRowFreeSeats, 3⟩ 0 3 [] =
      (false, ⟨lastRowFreeSeats, 3⟩, []) :=
  (allocateSeats_last_row 3).1 0 (by decide)

/-! ## Reachable states -/

/-- One call of `allocateSeats`, with any integer `seatCount`, keeps the
number of available seats of the grid at most `availableSeats` and
`availableSeats` at most 80. -/
theorem allocateSeats_keeps_bounds (c : Compartment) (k : Int)
    (h1 : (countAvailable c.seats : Int) ≤ c.availableSeats) (h2 : c.availableSeats ≤ 80) :
    (countAvailable (allocateSeats c k).2.seats : Int) ≤ (allocateSeats c k).2.availableSeats ∧
      (allocateSeats c k).2.availableSeats ≤ 80 := by
  obtain ⟨ps, hpw, hav, hseats, hres⟩ := allocateSeats_summary c k
  have hcount := countAvailable_bookAll ps c.seats (nodup_of_pairwise_rowMajorLt ps hpw) hav
  rw [hseats]
  rcases hres with ⟨_, hlen, havail⟩ | ⟨_, _, havail, _⟩
  · rw [havail]
    constructor <;> omega
  · rw [havail]
    constructor <;> omega

theorem afterCalls_keeps_bounds (counts : List Int) (c : Compartment)
    (h1 : (countAvailable c.seats : Int) ≤ c.availableSeats) (h2 : c.availableSeats ≤ 80) :
    (countAvailable (afterCalls c counts).seats : Int) ≤ (afterCalls c counts).availableSeats ∧
      (afterCalls c counts).availableSeats ≤ 80 := by
  induction counts generalizing c with
  | nil => exact ⟨h1, h2⟩
  | cons k rest ih =>
    have h := allocateSeats_keeps_bounds c k h1 h2
    exact ih _ h.1 h.2

theorem afterCalls_new_bounds (counts : List Int) :
    (countAvailable (afterCalls new counts).seats : Int) ≤
        (afterCalls new counts).availableSeats ∧
      (afterCalls new counts).availableSeats ≤ 80 :=
  afterCalls_keeps_bounds counts new (by decide) (by decide)

theorem allocateSeats_fails_of_count_lt (c : Compartment) (k : Int)
    (h : (countAvailable c.seats : Int) < k) : (allocateSeats c k).1 = none := by
  obtain ⟨ps, hpw, hav, _, hres⟩ := allocateSeats_summary c k
  have hcount := countAvailable_bookAll ps c.seats (nodup_of_pairwise_rowMajorLt ps hpw) hav
  rcases hres with ⟨_, hlen, _⟩ | ⟨hnone, _⟩
  · omega
  · exact hnone

/-- Claim C15: in every state reachable from the freshly constructed
Compartment by a finite sequence of `allocateSeats` calls, for every
`seatCount` for which `checkAvailability` returns false, that is
`seatCount > availableSeats`, a direct call of `allocateSeats` returns the
failure signal. -/
theorem allocateSeats_fails_when_check_fails (counts : List Int) (seatCount : Int)
    (hcheck : checkAvailability (afterCalls new counts) seatCount = false) :
    (afterCalls new counts).availableSeats < seatCount ∧
      (allocateSeats (afterCalls new counts) seatCount).1 = none := by
  have hlt : (afterCalls new counts).availableSeats < seatCount := by
    unfold checkAvailability at hcheck
    rw [decide_eq_false_iff_not] at hcheck
    omega
  have hb := afterCalls_new_bounds counts
  exact ⟨hlt, allocateSeats_fails_of_count_lt _ _ (by omega)⟩

/-- An instance: after requests for 7 and for 70 seats three seats are left,
and a request for 4 is refused by both operations. -/
theorem allocateSeats_fails_when_check_fails_witness :
    checkAvailability (afterCalls new [7, 70]) 4 = false ∧
      ((afterCalls new [7, 70]).availableSeats < 4 ∧
        (allocateSeats (afterCalls new [7, 70]) 4).1 = none) :=
  ⟨by decide, allocateSeats_fails_when_check_fails [7, 70] 4 (by decide)⟩

/-- Claim C18: in every state reachable from the freshly constructed
Compartment by a finite sequence of `allocateSeats` calls with arbitrary
integer seat counts, the number of available seats of the grid is at most
`availableSeats`, which is at most 80; so whenever `checkAvailability(k)`
returns false, fewer than `k` seats are really free. -/
theorem availableSeats_never_undercounts (counts : List Int) :
    (countAvailable (afterCalls new counts).seats : Int) ≤
        (afterCalls new counts).availableSeats ∧
      (afterCalls new counts).availableSeats ≤ 80 ∧
      ∀ k : Int, checkAvailability (afterCalls new counts) k = false →
        (countAvailable (afterCalls new counts).seats : Int) < k := by
  have hb := afterCalls_new_bounds counts
  refine ⟨hb.1, hb.2, ?_⟩
  intro k hcheck
  unfold checkAvailability at hcheck
  rw [decide_eq_false_iff_not] at hcheck
  omega

/-- An instance: after a failed request for 81 seats and a request for -2
seats, `checkAvailability(81)` is false and fewer than 81 seats are free. -/
theorem availableSeats_never_undercounts_witness :
    checkAvailability (afterCalls new [81, -2]) 81 = false ∧
      (countAvailable (afterCalls new [81, -2]).seats : Int) < 81 :=
  ⟨by decide, (availableSeats_never_undercounts [81, -2]).2.2 81 (by decide)⟩

/-- Claim C19: for `seatCount = 0` and for every negative `seatCount`, on the
freshly constructed Compartment `checkAvailability` returns true, yet
`allocateSeats` returns the failure signal, marks all 80 seats booked and
leaves `availableSeats` at 80. -/
theorem allocateSeats_new_nonpositive (seatCount : Int) (hk : seatCount ≤ 0) :
    checkAvailability new seatCount = true ∧
      allocateSeats new seatCount = (none, ⟨allBookedSeats, 80⟩) ∧
      countAvailable allBookedSeats = 0 := by
  refine ⟨?_, ?_, by decide⟩
  · unfold checkAvailability
    rw [decide_eq_true_eq]
    have : new.availableSeats = 80 := rfl
    omega
  · rcases allocateSeats_nonpos new seatCount hk with ⟨h0, h⟩ | h
    · rw [h0] at h
      exact absurd h (by decide)
    · rw [h]
      have : bookAll (availablePositions new.seats) new.seats = allBookedSeats := by decide
      rw [this]
      rfl

/-- An instance: the request for -5 seats. -/
theorem allocateSeats_new_nonpositive_witness :
    checkAvailability new (-5) = true ∧
      allocateSeats new (-5) = (none, ⟨allBookedSeats, 80⟩) ∧
      countAvailable allBookedSeats = 0 :=
  allocateSeats_new_nonpositive (-5) (by decide)

/-! ## The seats a call changes -/

theorem seatAt_bookAll_of_some (ps : List (Nat × Nat)) (g : List (List Int)) (r i : Nat)
    (v : Int) (h : seatAt g r i = some v) :
    seatAt (bookAll ps g) r i = some (if (r, i) ∈ ps then 0 else v) := by
  rw [seatAt_eq_some_iff] at h ⊢
  rw [length_bookAll, rowLength_bookAll, seatValue_bookAll, h.2.2]
  exact ⟨h.1, h.2.1, rfl⟩

theorem seatAt_of_seatValue_eq_one (g : List (List Int)) (r i : Nat)
    (h : seatValue g r i = 1) : seatAt g r i = some 1 := by
  rw [seatAt_eq_some_iff]
  have := seatValue_eq_one_lt g r i h
  exact ⟨this.1, this.2, h⟩

theorem lt_of_seatAt_ne_none (c : Compartment) (hshape : fixedShape c) (r i : Nat)
    (h : seatAt c.seats r i ≠ none) : r < 12 ∧ i < 7 := by
  obtain ⟨v, hv⟩ := Option.ne_none_iff_exists'.mp h
  rw [seatAt_eq_some_iff] at hv
  have h1 := fixedShape_length c hshape
  have h2 := fixedShape_rowLength_le c hshape r
  omega

theorem lt_of_seatValue_eq_one (c : Compartment) (hshape : fixedShape c) (r i : Nat)
    (h : seatValue c.seats r i = 1) : r < 12 ∧ i < 7 := by
  have h0 := seatValue_eq_one_lt c.seats r i h
  have h1 := fixedShape_length c hshape
  have h2 := fixedShape_rowLength_le c hshape r
  omega

/-- Claim C16: on a grid of the fixed shape and for a positive `seatCount`,
when `allocateSeats` succeeds every returned label names a seat of the grid,
and for every seat of the grid: if its label is in the returned list the seat
was available before the call and is booked after it, and if its label is
not in the list the seat has the same state after the call as before.  So
the seats whose state changes are exactly the seats the returned labels
name. -/
theorem allocateSeats_changes_named_seats (c : Compartment) (seatCount : Int)
    (labels : List String) (hshape : fixedShape c) (hpos : 0 < seatCount)
    (hok : (allocateSeats c seatCount).1 = some labels) :
    (∀ l ∈ labels, ∃ r i, seatAt c.seats r i = some 1 ∧ l = seatLabel r i) ∧
      ∀ r i, seatAt c.seats r i ≠ none →
        (seatLabel r i ∈ labels →
          seatAt c.seats r i = some 1 ∧
            seatAt (allocateSeats c seatCount).2.seats r i = some 0) ∧
        (seatLabel r i ∉ labels →
          seatAt (allocateSeats c seatCount).2.seats r i = seatAt c.seats r i) := by
  obtain ⟨ps, _, hav, hseats, hres⟩ := allocateSeats_summary c seatCount
  rcases hres with ⟨hsome, _, _⟩ | ⟨hnone, _⟩
  · rw [hsome] at hok
    injection hok with hok
    have hmem : ∀ r i, r < 12 → i < 7 → (seatLabel r i ∈ labels ↔ (r, i) ∈ ps) := by
      intro r i hr hi
      rw [← hok, List.mem_map]
      constructor
      · rintro ⟨p, hp, hlab⟩
        have hp2 := lt_of_seatValue_eq_one c hshape p.1 p.2 (hav p hp)
        have := seatLabel_injective p.1 p.2 r i hp2.1 hp2.2 hr hi hlab
        have hpe : p = (r, i) := Prod.ext this.1 this.2
        rw [← hpe]; exact hp
      · intro hp
        exact ⟨(r, i), hp, rfl⟩
    constructor
    · intro l hl
      rw [← hok, List.mem_map] at hl
      obtain ⟨p, hp, rfl⟩ := hl
      exact ⟨p.1, p.2, seatAt_of_seatValue_eq_one _ _ _ (hav p hp), rfl⟩
    · intro r i hne
      have hlt := lt_of_seatAt_ne_none c hshape r i hne
      obtain ⟨v, hv⟩ := Option.ne_none_iff_exists'.mp hne
      have hafter := seatAt_bookAll_of_some ps c.seats r i v hv
      rw [hseats, hmem r i hlt.1 hlt.2]
      constructor
      · intro hp
        rw [hafter, if_pos hp]
        exact ⟨seatAt_of_seatValue_eq_one _ _ _ (hav (r, i) hp), rfl⟩
      · intro hp
        rw [hafter, if_neg hp, hv]
  · rw [hnone] at hok
    exact absurd hok (by simp)

/-- An instance: the request for 3 seats on the freshly constructed
Compartment and the seat A2. -/
theorem allocateSeats_changes_named_seats_witness :
    fixedShape new ∧
      seatAt new.seats 0 1 = some 1 ∧ seatAt (allocateSeats new 3).2.seats 0 1 = some 0 :=
  ⟨by decide,
    ((allocateSeats_changes_named_seats new 3 ["A1", "A2", "A3"] (by decide) (by decide)
      (by decide)).2 0 1 (by decide)).1 (by decide)⟩

/-! ## Labels returned over a sequence of calls -/

/-- The label lists returned over a sequence of calls are the labels of lists
of positions that are all distinct and all available in the starting
state. -/
theorem returnedLists_positions (counts : List Int) (c : Compartment) :
    ∃ P : List (List (Nat × Nat)),
      returnedLists c counts = P.map (List.map labelOf) ∧ P.flatten.Nodup ∧
        ∀ p ∈ P.flatten, seatValue c.seats p.1 p.2 = 1 := by
  induction counts generalizing c with
  | nil => exact ⟨[], rfl, List.nodup_nil, fun p hp => absurd hp (List.not_mem_nil p)⟩
  | cons k rest ih =>
    obtain ⟨ps, hpw, hav, hseats, hres⟩ := allocateSeats_summary c k
    obtain ⟨P, hP1, hP2, hP3⟩ := ih (allocateSeats c k).2
    have hrest : ∀ p ∈ P.flatten, seatValue c.seats p.1 p.2 = 1 ∧ p ∉ ps := by
      intro p hp
      have h := hP3 p hp
      rw [hseats, seatValue_bookAll] at h
      by_cases hmem : (p.1, p.2) ∈ ps
      · rw [if_pos hmem] at h
        exact absurd h (by decide)
      · rw [if_neg hmem] at h
        exact ⟨h, hmem⟩
    rcases hres with ⟨hsome, _, _⟩ | ⟨hnone, _⟩
    · refine ⟨ps :: P, ?_, ?_, ?_⟩
      · simp only [returnedLists, hsome, List.map_cons, hP1]
      · rw [List.flatten_cons, List.nodup_append]
        refine ⟨nodup_of_pairwise_rowMajorLt ps hpw, hP2, ?_⟩
        intro p hp1 hp2
        exact (hrest p hp2).2 hp1
      · intro p hp
        rw [List.flatten_cons, List.mem_append] at hp
        rcases hp with hp | hp
        · exact hav p hp
        · exact (hrest p hp).1
    · refine ⟨P, ?_, hP2, fun p hp => (hrest p hp).1⟩
      simp only [returnedLists, hnone, hP1]

/-- Claim C17: for every finite sequence of `allocateSeats` calls with
arbitrary integer seat counts, starting from the freshly constructed
Compartment, each label list returned by a successful call is free of
duplicates, the returned lists are pairwise disjoint, and the total number of
labels returned over the whole sequence is at most 80. -/
theorem no_seat_handed_out_twice (counts : List Int) :
    (∀ labels ∈ returnedLists new counts, labels.Nodup) ∧
      (returnedLists new counts).Pairwise List.Disjoint ∧
      ((returnedLists new counts).map List.length).sum ≤ 80 := by
  obtain ⟨P, hP1, hP2, hP3⟩ := returnedLists_positions counts new
  have hflat : (returnedLists new counts).flatten = P.flatten.map labelOf := by
    rw [hP1, List.map_flatten]
  have hnd : (returnedLists new counts).flatten.Nodup := by
    rw [hflat]
    refine List.Nodup.map_on ?_ hP2
    intro p hp q hq hpq
    have hp1 := lt_of_seatValue_eq_one new (by decide) p.1 p.2 (hP3 p hp)
    have hq1 := lt_of_seatValue_eq_one new (by decide) q.1 q.2 (hP3 q hq)
    have := seatLabel_injective p.1 p.2 q.1 q.2 hp1.1 hp1.2 hq1.1 hq1.2 hpq
    exact Prod.ext this.1 this.2
  have hsplit := List.nodup_flatten.mp hnd
  refine ⟨hsplit.1, hsplit.2, ?_⟩
  rw [← List.length_flatten, hflat, List.length_map]
  have hcount := countAvailable_bookAll P.flatten new.seats hP2 hP3
  have h80 : countAvailable new.seats = 80 := by decide
  omega

/-! ## Every index is in bounds -/

theorem rowNames_length : rowNames.length = 12 := by decide

theorem seatAt_of_lt (g : List (List Int)) (r i : Nat) (hr : r < g.length)
    (hi : i < rowLength g r) : seatAt g r i = some (seatValue g r i) := by
  rw [seatAt_eq_some_iff]
  exact ⟨hr, hi, rfl⟩

theorem setBookedChecked_of_lt (g : List (List Int)) (r i : Nat) (hr : r < g.length)
    (hi : i < rowLength g r) : setBookedChecked g r i = some (setBooked g r i) := by
  unfold setBookedChecked
  rw [if_pos ⟨hr, hi⟩]

theorem seatLabelChecked_of_lt (r i : Nat) (hr : r < 12) :
    seatLabelChecked r i = some (seatLabel r i) := by
  unfold seatLabelChecked
  rw [rowNames_length, if_pos hr]

theorem getElem?_eq_some_getD (g : List (List Int)) (r : Nat) (hr : r < g.length) :
    g[r]? = some (g.getD r []) := by
  rw [List.getElem?_eq_getElem hr, List.getD_eq_getElem g [] hr]

theorem commitBlockChecked_eq (r : Nat) (hr12 : r < 12) (temp : List Nat)
    (g : List (List Int)) (out : List String) (hr : r < g.length)
    (htemp : ∀ x ∈ temp, x < rowLength g r) :
    commitBlockChecked r temp g out = some (commitBlock r temp g out) := by
  induction temp generalizing g out with
  | nil => rfl
  | cons x rest ih =>
    unfold commitBlockChecked commitBlock
    rw [setBookedChecked_of_lt g r x hr (htemp x (List.mem_cons_self _ _)),
      seatLabelChecked_of_lt r x hr12]
    simp only []
    apply ih
    · rw [length_setBooked]; exact hr
    · intro y hy
      rw [rowLength_setBooked]
      exact htemp y (List.mem_cons_of_mem _ hy)

theorem consecutiveLoopChecked_eq (r : Nat) (k : Int) (c : Compartment) (out : List String)
    (hr : r < c.seats.length) (hr12 : r < 12) :
    ∀ (remaining i : Nat) (cs : Int) (temp : List Nat),
      i + remaining = rowLength c.seats r → (∀ x ∈ temp, x < i) →
      consecutiveLoopChecked r k remaining i cs temp c out =
        some (consecutiveLoop r k remaining i cs temp c out) := by
  intro remaining
  induction remaining with
  | zero => intro i cs temp _ _; rfl
  | succ rem ih =>
    intro i cs temp hlen htemp
    unfold consecutiveLoopChecked consecutiveLoop
    rw [seatAt_of_lt c.seats r i hr (by omega)]
    simp only []
    have htemp1 : ∀ x ∈ (if seatValue c.seats r i = 1 then temp ++ [i] else []), x < i + 1 := by
      intro x hx
      by_cases hv : seatValue c.seats r i = 1
      · rw [if_pos hv, List.mem_append, List.mem_singleton] at hx
        rcases hx with hx | hx
        · have := htemp x hx; omega
        · omega
      · rw [if_neg hv] at hx
        exact absurd hx (List.not_mem_nil x)
    by_cases hk : (if seatValue c.seats r i = 1 then cs + 1 else 0) = k
    · rw [if_pos hk, if_pos hk,
        commitBlockChecked_eq r hr12 _ c.seats out hr (fun x hx => by
          have := htemp1 x hx; omega)]
    · rw [if_neg hk, if_neg hk]
      exact ih (i + 1) _ _ (by omega) htemp1

theorem allocateConsecutiveSeatsChecked_eq (c : Compartment) (r : Nat) (k : Int)
    (out : List String) (hr : r < c.seats.length) (hr12 : r < 12) :
    allocateConsecutiveSeatsChecked c r k out = some (allocateConsecutiveSeats c r k out) := by
  unfold allocateConsecutiveSeatsChecked allocateConsecutiveSeats
  rw [getElem?_eq_some_getD c.seats r hr]
  simp only []
  exact consecutiveLoopChecked_eq r k c out hr hr12 _ 0 0 []
    (by unfold rowLength; omega) (fun x hx => absurd hx (List.not_mem_nil x))

/-- A call of `allocateConsecutiveSeats` that returns `false` has changed
neither the object nor the list. -/
theorem consecutiveLoop_false (r : Nat) (k : Int) (c : Compartment) (out : List String) :
    ∀ (remaining i : Nat) (cs : Int) (temp : List Nat),
      (consecutiveLoop r k remaining i cs temp c out).1 = false →
      consecutiveLoop r k remaining i cs temp c out = (false, c, out) := by
  intro remaining
  induction remaining with
  | zero => intro i cs temp _; rfl
  | succ rem ih =>
    intro i cs temp h
    unfold consecutiveLoop at h ⊢
    simp only [] at h ⊢
    by_cases hk : (if seatValue c.seats r i = 1 then cs + 1 else 0) = k
    · rw [if_pos hk] at h
      exact absurd h (by simp)
    · rw [if_neg hk] at h ⊢
      exact ih _ _ _ h

theorem consecutiveRowsChecked_eq (k : Int) (c : Compartment) (h12 : c.seats.length ≤ 12) :
    ∀ (remaining r0 : Nat) (out : List String), r0 + remaining = c.seats.length →
      consecutiveRowsChecked k remaining r0 c out = some (consecutiveRows k remaining r0 c out) := by
  intro remaining
  induction remaining with
  | zero => intro r0 out _; rfl
  | succ rem ih =>
    intro r0 out hlen
    unfold consecutiveRowsChecked consecutiveRows
    rw [allocateConsecutiveSeatsChecked_eq c r0 k out (by omega) (by omega)]
    rcases hres : allocateConsecutiveSeats c r0 k out with ⟨b, c1, out1⟩
    cases b with
    | true => rfl
    | false =>
      have hfalse := consecutiveLoop_false r0 k c out (c.seats.getD r0 []).length 0 0 []
        (by
          have : (allocateConsecutiveSeats c r0 k out).1 = false := by rw [hres]
          exact this)
      have heq : (false, c1, out1) = (false, c, out) := by
        rw [← hres]; exact hfalse
      injection heq with _ h2
      injection h2 with hc hout
      subst hc hout
      simp only []
      exact ih (r0 + 1) out1 (by omega)

theorem scatterSeatsChecked_eq (r : Nat) (hr12 : r < 12) :
    ∀ (remaining i : Nat) (c : Compartment) (out : List String) (n : Int),
      r < c.seats.length → i + remaining = rowLength c.seats r →
      scatterSeatsChecked r remaining i c out n = some (scatterSeats r remaining i c out n) := by
  intro remaining
  induction remaining with
  | zero => intro i c out n _ _; rfl
  | succ rem ih =>
    intro i c out n hr hlen
    unfold scatterSeatsChecked scatterSeats
    rw [seatAt_of_lt c.seats r i hr (by omega)]
    simp only []
    by_cases hv : seatValue c.seats r i = 1
    · rw [if_pos hv, if_pos hv, seatLabelChecked_of_lt r i hr12,
        setBookedChecked_of_lt c.seats r i hr (by omega)]
      simp only []
      by_cases h0 : n - 1 = 0
      · rw [if_pos h0, if_pos h0]
      · rw [if_neg h0, if_neg h0]
        apply ih
        · simp only [length_setBooked]; exact hr
        · simp only [rowLength_setBooked]; omega
    · rw [if_neg hv, if_neg hv]
      exact ih (i + 1) c out n hr (by omega)

theorem scatterRowsChecked_eq :
    ∀ (remaining r0 : Nat) (c : Compartment) (out : List String) (n : Int),
      c.seats.length ≤ 12 → r0 + remaining = c.seats.length →
      scatterRowsChecked remaining r0 c out n = some (scatterRows remaining r0 c out n) := by
  intro remaining
  induction remaining with
  | zero => intro r0 c out n _ _; rfl
  | succ rem ih =>
    intro r0 c out n h12 hlen
    unfold scatterRowsChecked scatterRows
    rw [getElem?_eq_some_getD c.seats r0 (by omega)]
    simp only []
    rw [scatterSeatsChecked_eq r0 (by omega) _ 0 c out n (by omega)
      (by unfold rowLength; omega)]
    have hlenr : (c.seats.getD r0 []).length = rowLength c.seats r0 := rfl
    rw [hlenr, scatterSeats_eq]
    by_cases hc : 1 ≤ n ∧ n ≤ ((availableFrom c.seats r0 0 (rowLength c.seats r0)).length : Int)
    · rw [if_pos hc]
    · rw [if_neg hc]
      simp only []
      apply ih
      · simp only [length_bookAll]; exact h12
      · simp only [length_bookAll]; omega

/-- On a grid of at most 12 rows no index that `allocateSeats` uses is out of
bounds: the checked function returns what `allocateSeats` returns. -/
theorem allocateSeatsChecked_eq (c : Compartment) (k : Int) (h12 : c.seats.length ≤ 12) :
    allocateSeatsChecked c k = some (allocateSeats c k) := by
  unfold allocateSeatsChecked allocateSeats
  rw [consecutiveRowsChecked_eq k c h12 c.seats.length 0 [] (by omega)]
  rcases hres : consecutiveRows k c.seats.length 0 c [] with ⟨b, c1, out1⟩
  cases b with
  | true => rfl
  | false =>
    have hc1 : c1.seats.length ≤ 12 := by
      by_cases hk : k ≤ 0
      · rcases consecutiveRows_nonpos k hk c [] c.seats.length 0 with h | ⟨_, h⟩
        · rw [h] at hres
          injection hres with _ h2
          injection h2 with hc _
          rw [← hc]; exact h12
        · rw [h] at hres
          injection hres with hb _
          exact absurd hb (by simp)
      · obtain ⟨n, rfl⟩ : ∃ n : Nat, k = (n : Int) := ⟨k.toNat, by omega⟩
        rcases consecutiveRows_spec n (by omega) c [] c.seats.length 0 with
          ⟨_, _, _, _, _, _, _, h⟩ | ⟨_, h⟩
        · rw [h] at hres
          injection hres with hb _
          exact absurd hb (by simp)
        · rw [h] at hres
          injection hres with _ h2
          injection h2 with hc _
          rw [← hc]; exact h12
    simp only []
    rw [scatterRowsChecked_eq c1.seats.length 0 c1 out1 k hc1 (by omega)]
    rcases scatterRows c1.seats.length 0 c1 out1 k with ⟨c2, out2⟩ | ⟨c2, out2, n2⟩ <;> rfl

/-- The index checks are real: on a grid with a thirteenth row the scan of
the second phase asks `seatLabel` for a row that `rowNames` does not have. -/
theorem allocateSeatsChecked_thirteen_rows :
    allocateSeatsChecked ⟨List.replicate 13 [1], 13⟩ 20 = none := by
  decide

/-- Claim C20: on a grid of the fixed shape and for every integer
`seatCount`, `allocateSeats` leaves the number of rows and the length of
every row unchanged, and every index it uses is in bounds: the function with
each index checked (row indices against the 12 rows of the grid and the 12
letters of `rowNames`, seat indices against the length of their row) never
stops on a check and returns what `allocateSeats` returns. -/
theorem allocateSeats_indices_in_bounds (c : Compartment) (seatCount : Int)
    (hshape : fixedShape c) :
    (allocateSeats c seatCount).2.seats.map List.length = c.seats.map List.length ∧
      allocateSeatsChecked c seatCount = some (allocateSeats c seatCount) := by
  constructor
  · obtain ⟨ps, _, _, hseats, _⟩ := allocateSeats_summary c seatCount
    rw [hseats, map_length_bookAll]
  · exact allocateSeatsChecked_eq c seatCount (by rw [fixedShape_length c hshape])

/-- An instance: a request for 78 seats after A1-A3 are booked. -/
theorem allocateSeats_indices_in_bounds_witness :
    fixedShape (allocateSeats new 3).2 ∧
      ((allocateSeats (allocateSeats new 3).2 78).2.seats.map List.length =
          (allocateSeats new 3).2.seats.map List.length ∧
        allocateSeatsChecked (allocateSeats new 3).2 78 =
          some (allocateSeats (allocateSeats new 3).2 78)) :=
  ⟨by decide, allocateSeats_indices_in_bounds (allocateSeats new 3).2 78 (by decide)⟩

end Compartment

end Railway
